import Mathlib

/-!
# quectel-timesync: the serial response handler

A shallow embedding of `src/quectel-timesync.c` and theorems about it.

Conventions of the embedding.

* A byte (`char`) is a `Nat`; a C string is the list of its bytes before the
  terminating NUL.  `bytes "..."` is the byte list of a string literal.
* A `char` array is a `List Nat` whose length is the capacity of the array; a
  pointer into it is the `Nat` offset from its start.  A store outside the
  array is undefined behaviour in C and is the outcome `fault` here.
* The environment of `read_response` is a list of loop iterations, each giving
  the value `time(NULL)` returns at the top of the iteration and what
  `read(fd, &input_char, 1)` does.  When the list is exhausted the loop is
  still `running`.
* Integer widths are those of an LP64 platform: `int` is 32 bits, `size_t` and
  `unsigned long` are 64 bits, `uint16_t` is 16 bits.
* Output on `stdout` and `stderr` (including everything under `debug`) and the
  `usleep` pauses are not modelled.
-/

namespace QuectelTimesync

/-! ## Bytes and C strings -/

/-- Byte list of a string literal (all literals of the program are ASCII). -/
def bytes (s : String) : List Nat := s.toList.map Char.toNat

/-- C `strlen`: the number of bytes before the first NUL of the array. -/
def strlen (mem : List Nat) : Nat := (mem.takeWhile (fun b => b != 0)).length

/-- The C string held at the start of an array: the bytes before the first NUL. -/
def cstr (mem : List Nat) : List Nat := mem.takeWhile (fun b => b != 0)

/-- Store `*(mem + i) = v`; `none` when the location is outside the array. -/
def store (mem : List Nat) (i : Nat) (v : Nat) : Option (List Nat) :=
  if i < mem.length then some (mem.set i v) else none

/-- The test `strncmp(a, b, n) == 0`: the first `n` bytes agree, comparison
stopping early after a NUL common to both.  Reading past the end of a list
reads the terminating NUL of the C string. -/
def strncmp_eq : List Nat → List Nat → Nat → Bool
  | _, _, 0 => true
  | a, b, n + 1 =>
    if a.headD 0 != b.headD 0 then false
    else if a.headD 0 == 0 then true
    else strncmp_eq a.tail b.tail n

/-! ## The frame scanner `read_response` -/

def READ_WAIT_TIMEOUT : Nat := 1000

def WRITE_WAIT_TIMEOUT : Nat := READ_WAIT_TIMEOUT * 10

def RESPONSE_TIMEOUT : Int := 10

/-- The `enum read_state` of the source. -/
inductive read_state where
  | READ_STATE_IDLE
  | READ_STATE_PREFIX
  | READ_STATE_SEP_SPACE
  | READ_STATE_CONTENT
  deriving DecidableEq, Repr

open read_state

/-- What one call `read(fd, &input_char, 1)` does. -/
inductive ReadResult where
  /-- returns 1 and stores the byte in `input_char` -/
  | data (b : Nat)
  /-- returns 0 and leaves `input_char` untouched -/
  | eof
  /-- returns a negative value (`EAGAIN` or any other error; `errno` is not inspected) -/
  | error
  deriving DecidableEq, Repr

/-- One iteration of the `while (1)` loop as seen from outside: the value of
`time(NULL)` at line 62 and the behaviour of `read` at line 68. -/
structure Event where
  clock : Int
  read : ReadResult
  deriving DecidableEq, Repr

/-- The local variables of `read_response` together with the caller's buffer. -/
structure Scan where
  state : read_state
  /-- `char prefix_buf[32]` -/
  prefix_buf : List Nat
  /-- `prefix_ptr - prefix_buf`, or `none` for `NULL` -/
  prefix_ptr : Option Nat
  input_char : Nat
  /-- the array `buf` points into -/
  buf : List Nat
  /-- `ptr - buf` -/
  ptr : Nat
  deriving DecidableEq, Repr

/-- How far `read_response` has got. -/
inductive Outcome where
  /-- the loop is at the top of an iteration -/
  | running (s : Scan)
  /-- the function returned `r` -/
  | returned (r : Int) (s : Scan)
  /-- a store outside `prefix_buf` or `buf`, or a use of the `NULL` `prefix_ptr` -/
  | fault (s : Scan)
  deriving DecidableEq, Repr

/-- The `switch (state)` statement, lines 74-112, on the current `input_char`.
The array `buf` has fewer than 2^31 bytes, so the conversion of `ptr - buf` to
the `int` returned at line 107 is exact. -/
def dispatch (response : List Nat) (s : Scan) : Outcome :=
  match s.state with
  | READ_STATE_IDLE =>
    if s.input_char = 43 then
      .running { s with state := READ_STATE_PREFIX, prefix_ptr := some 0 }
    else .running s
  | READ_STATE_PREFIX =>
    match s.prefix_ptr with
    | none => .fault s
    | some p =>
      if s.input_char = 58 then
        if p ≠ response.length then
          .running { s with state := READ_STATE_IDLE }
        else if !(strncmp_eq s.prefix_buf response response.length) then
          .running { s with state := READ_STATE_IDLE }
        else
          match store s.prefix_buf p s.input_char with
          | none => .fault s
          | some m =>
            .running { s with state := READ_STATE_SEP_SPACE, prefix_buf := m, prefix_ptr := some (p + 1) }
      else
        match store s.prefix_buf p s.input_char with
        | none => .fault s
        | some m => .running { s with prefix_buf := m, prefix_ptr := some (p + 1) }
  | READ_STATE_SEP_SPACE =>
    if s.input_char = 32 then .running { s with state := READ_STATE_CONTENT }
    else .running { s with state := READ_STATE_IDLE }
  | READ_STATE_CONTENT =>
    if s.input_char = 10 then
      match store s.buf s.ptr 0 with
      | none => .fault s
      | some m => .returned (s.ptr : Int) { s with buf := m }
    else
      match store s.buf s.ptr s.input_char with
      | none => .fault s
      | some m => .running { s with buf := m, ptr := s.ptr + 1 }

/-- One iteration of the loop, lines 62-112. -/
def iteration (start_time : Int) (response : List Nat) (s : Scan) (e : Event) : Outcome :=
  if e.clock - start_time > RESPONSE_TIMEOUT then .returned (-1) s
  else
    match e.read with
    | .error => .running s
    | .eof => dispatch response s
    | .data b => dispatch response { s with input_char := b }

/-- The loop over the iterations the environment provides. -/
def run (start_time : Int) (response : List Nat) : Outcome → List Event → Outcome
  | .running s, e :: es => run start_time response (iteration start_time response s e) es
  | o, _ => o

/-- Indeterminate initial values of the automatic variables. -/
structure Garbage where
  prefix_buf : Nat → Nat
  input_char : Nat
  buf : Nat → Nat
  fields : Nat → Nat

/-- The variables of `read_response` after lines 57-59. -/
def read_response_init (g : Garbage) (buf : List Nat) : Scan :=
  { state := READ_STATE_IDLE
    prefix_buf := (List.range 32).map g.prefix_buf
    prefix_ptr := none
    input_char := g.input_char
    buf := buf
    ptr := 0 }

/-- The function `read_response`, lines 49-114.  `start_time` is the value of
`time(NULL)` at line 57; `buf_size` is accepted and, as in the source, not used. -/
def read_response (g : Garbage) (start_time : Int) (evs : List Event)
    (response : List Nat) (buf : List Nat) (buf_size : Int) : Outcome :=
  run start_time response (.running (read_response_init g buf)) evs

/-! ## The validator `validate_response` -/

/-- Conversion of an `int` to `size_t` (64 bits). -/
def to_size_t (x : Int) : Int := x % 2 ^ 64

/-- The function `validate_response`, lines 116-122.  The comparison at line
117 is made in `size_t`, to which `response_len` is converted. -/
def validate_response (response : List Nat) (response_len : Int) : Int :=
  if ((strlen (bytes "\"2023/10/07,23:07:16+08,1\"") : Nat) : Int) ≠ to_size_t response_len then -1
  else 0

/-! ## The field extractor `parse_response` -/

def DATE_TIME_FIELD_YEAR : Nat := 0
def DATE_TIME_FIELD_MONTH : Nat := 1
def DATE_TIME_FIELD_DAY : Nat := 2
def DATE_TIME_FIELD_HOUR : Nat := 3
def DATE_TIME_FIELD_MINUTE : Nat := 4
def DATE_TIME_FIELD_SECOND : Nat := 5
def __DATE_TIME_FIELD_MAX : Nat := 6

/-- C `isspace` in the "C" locale: space, `\t`, `\n`, `\v`, `\f`, `\r`. -/
def isspace (c : Nat) : Bool := c == 32 || (9 ≤ c && c ≤ 13)

/-- C `isdigit`. -/
def isdigit (c : Nat) : Bool := 48 ≤ c && c ≤ 57

def ULONG_MAX : Nat := 2 ^ 64 - 1

/-- Value of the longest run of decimal digits at the start of `s`, continuing
the accumulated value `acc`. -/
def digit_run : List Nat → Nat → Nat
  | [], acc => acc
  | c :: cs, acc => if isdigit c then digit_run cs (10 * acc + (c - 48)) else acc

/-- The library function `strtoul(s, NULL, 10)` of ISO C on the C string `s`:
leading white space is skipped, one optional sign is read, then the longest
run of decimal digits is converted; no digits give 0, a value that does not
fit gives `ULONG_MAX`, and a leading minus sign negates the value in
`unsigned long`. -/
def strtoul (s : List Nat) : Nat :=
  let s1 := s.dropWhile isspace
  let v := digit_run (if s1.head? = some 45 ∨ s1.head? = some 43 then s1.tail else s1) 0
  if v > ULONG_MAX then ULONG_MAX
  else if s1.head? = some 45 then (2 ^ 64 - v) % 2 ^ 64
  else v

/-- Conversion of an `unsigned long` to `long` (line 144). -/
def to_long (v : Nat) : Int := if v < 2 ^ 63 then (v : Int) else (v : Int) - 2 ^ 64

/-- Conversion of a `long` to `uint16_t` (line 146). -/
def to_uint16 (x : Int) : Nat := (x % 65536).toNat

/-- The function `copy_and_parse_field`, lines 134-149: the value stored in
`*output` and the return value.  `fieldbuf` is the part of `char fieldbuf[16]`
up to the NUL stored at line 142 (the calls of the program have `len < 16`). -/
def copy_and_parse_field (src : List Nat) (offset len : Nat) : Nat × Int :=
  let fieldbuf := (List.range len).map (fun i => src.getD (offset + i) 0) ++ [0]
  let val := to_long (strtoul (cstr fieldbuf))
  (to_uint16 val, -1)

/-- The function `parse_response`, lines 151-172: the array `output` after the
six stores and the return value.  The return values of `copy_and_parse_field`
are discarded, as in the source. -/
def parse_response (response : List Nat) (output : List Nat) : List Nat × Int :=
  let output := output.set DATE_TIME_FIELD_YEAR (copy_and_parse_field response 1 4).1
  let output := output.set DATE_TIME_FIELD_MONTH (copy_and_parse_field response 6 2).1
  let output := output.set DATE_TIME_FIELD_DAY (copy_and_parse_field response 9 2).1
  let output := output.set DATE_TIME_FIELD_HOUR (copy_and_parse_field response 12 2).1
  let output := output.set DATE_TIME_FIELD_MINUTE (copy_and_parse_field response 15 2).1
  let output := output.set DATE_TIME_FIELD_SECOND (copy_and_parse_field response 18 2).1
  (output, 0)

/-! ## The clock setter `set_date_and_time` -/

/-- The decimal digits of `n`, most significant first, at most `fuel` of them. -/
def decimal_digits_aux : Nat → Nat → List Nat
  | 0, _ => []
  | fuel + 1, n =>
    if n < 10 then [48 + n] else decimal_digits_aux fuel (n / 10) ++ [48 + n % 10]

/-- The decimal digits of `n`, most significant first. -/
def decimal_digits (n : Nat) : List Nat := decimal_digits_aux (n + 1) n

/-- The conversion `%0<width>d` of ISO C `printf` applied to a non-negative
`int`: its decimal digits, with zeros on the left up to `width` characters. -/
def printf_0d (width : Nat) (n : Nat) : List Nat :=
  List.replicate (width - (decimal_digits n).length) 48 ++ decimal_digits n

/-- The output of `printf` for a format made of ordinary characters and of
conversions `%0<w>d` with a one-digit width, on non-negative `int` arguments. -/
def format : List Nat → List Nat → List Nat
  | 37 :: 48 :: w :: 100 :: rest, a :: args => printf_0d (w - 48) a ++ format rest args
  | c :: rest, args => c :: format rest args
  | [], _ => []

/-- The C string `snprintf(buf, size, fmt, ...)` leaves in `buf`: the output,
cut after `size - 1` characters. -/
def snprintf (size : Nat) (fmt : List Nat) (args : List Nat) : List Nat :=
  (format fmt args).take (size - 1)

/-- The function `set_date_and_time`, lines 174-191: the command handed to
`system` and the return value.  The `uint16_t` fields are promoted to `int`,
so the arguments of `snprintf` are not negative. -/
def set_date_and_time (fields : List Nat) : List Nat × Int :=
  let buf := snprintf 96 (bytes "date -u \"%04d-%02d-%02d %02d:%02d:%02d\"")
    [fields.getD DATE_TIME_FIELD_YEAR 0, fields.getD DATE_TIME_FIELD_MONTH 0,
     fields.getD DATE_TIME_FIELD_DAY 0, fields.getD DATE_TIME_FIELD_HOUR 0,
     fields.getD DATE_TIME_FIELD_MINUTE 0, fields.getD DATE_TIME_FIELD_SECOND 0]
  (buf, 0)

/-! ## The orchestrator `perform_timesync` -/

/-- What `perform_timesync` does to its collaborators. -/
inductive Action where
  /-- `write_command` hands the command to `write` -/
  | write (command : List Nat)
  /-- `read_response` is called and has the given outcome -/
  | read_response (o : Outcome)
  /-- `set_date_and_time` is called with the array `fields` -/
  | set_date_and_time (fields : List Nat)
  deriving DecidableEq, Repr

/-- The function `write_command`, lines 29-40, as seen by the byte sink: the
command is handed to `write`.  Its return value is ignored by the caller. -/
def write_command (log : List Action) (command : List Nat) : List Action :=
  log ++ [.write command]

/-- What one call of `perform_timesync` did. -/
structure SyncTrace where
  /-- the actions on the collaborators, in order -/
  actions : List Action
  /-- the return value; `none` while `read_response` has not returned -/
  ret : Option Int
  deriving DecidableEq, Repr

/-- The function `perform_timesync`, lines 198-227.  `strlen(buf)` is at most
255 when `read_response` has returned, so its conversion to `int` is exact. -/
def perform_timesync (g : Garbage) (start_time : Int) (evs : List Event) : SyncTrace :=
  let fields := (List.range __DATE_TIME_FIELD_MAX).map g.fields
  let buf := (List.range 256).map g.buf
  let log := write_command [] (bytes "ATE0\r\n")
  let log := write_command log (bytes "AT+QLTS=1\r\n")
  let o := read_response g start_time evs (bytes "QLTS") buf 256
  let log := log ++ [.read_response o]
  match o with
  | .returned r s =>
    if r < 0 then { actions := log, ret := some (-1) }
    else if validate_response s.buf (strlen s.buf) ≠ 0 then { actions := log, ret := some (-1) }
    else if (parse_response s.buf fields).2 ≠ 0 then { actions := log, ret := some (-1) }
    else
      { actions := log ++ [.set_date_and_time (parse_response s.buf fields).1], ret := some 0 }
  | _ => { actions := log, ret := none }

/-! ## Vocabulary of the statements -/

/-- The byte values the `switch` statement is run on while the events `evs`
are processed without a timeout, `c` being the current `input_char`: a
received byte, or the unchanged `input_char` after a read that returned 0. -/
def consumed (c : Nat) : List Event → List Nat
  | [] => []
  | e :: es =>
    match e.read with
    | .error => consumed c es
    | .eof => c :: consumed c es
    | .data b => b :: consumed b es

/-- The scanner run on a sequence of byte values, one `switch` per byte. -/
def feed (response : List Nat) : Outcome → List Nat → Outcome
  | .running s, b :: bs => feed response (dispatch response { s with input_char := b }) bs
  | o, _ => o

/-- No event of `evs` is past the deadline. -/
def InDeadline (start_time : Int) (evs : List Event) : Prop :=
  ∀ e ∈ evs, e.clock - start_time ≤ RESPONSE_TIMEOUT

instance (start_time : Int) (evs : List Event) : Decidable (InDeadline start_time evs) := by
  unfold InDeadline; infer_instance

/-- The bytes the reads of `evs` return, in order. -/
def received : List Event → List Nat
  | [] => []
  | e :: es =>
    match e.read with
    | .data b => b :: received es
    | _ => received es

/-- The reads of `evs` return exactly the bytes `stream`, with any number of
reads without data in between and no read that returns 0. -/
def Receives (evs : List Event) (stream : List Nat) : Prop :=
  received evs = stream ∧ ∀ e ∈ evs, e.read ≠ ReadResult.eof

/-- The events `evs` deliver exactly the bytes `stream`, none past the
deadline. -/
def Delivers (start_time : Int) (evs : List Event) (stream : List Nat) : Prop :=
  Receives evs stream ∧ InDeadline start_time evs

/-- The events that deliver `stream` with every clock reading equal to `t`. -/
def deliver (t : Int) (stream : List Nat) : List Event :=
  stream.map (fun b => { clock := t, read := .data b })

/-- The events that deliver `stream` at clock reading `t`, each byte only at
the second attempt, after a read without data. -/
def deliver_polling (t : Int) : List Nat → List Event
  | [] => []
  | b :: bs => { clock := t, read := .error } :: { clock := t, read := .data b } ::
      deliver_polling t bs

/-- The events without the reads that return no data. -/
def drop_no_data : List Event → List Event
  | [] => []
  | e :: es =>
    match e.read with
    | .error => drop_no_data es
    | _ => e :: drop_no_data es

/-- Noise lines `+p:r`, one after the other. -/
def noise : List (List Nat × List Nat) → List Nat
  | [] => []
  | seg :: rest => ([43] ++ seg.1 ++ [58] ++ seg.2) ++ noise rest

/-- A noise line `+p:r` the scanner gets over: `p` has no `:`, is not the
expected prefix and fits an accumulator of `cap` bytes, and `r` has no `+`. -/
def NoiseLine (response : List Nat) (cap : Nat) (seg : List Nat × List Nat) : Prop :=
  58 ∉ seg.1 ∧ seg.1 ≠ response ∧ seg.1.length ≤ cap ∧ 43 ∉ seg.2

instance (response : List Nat) (cap : Nat) (seg : List Nat × List Nat) :
    Decidable (NoiseLine response cap seg) := by
  unfold NoiseLine; infer_instance

/-- What the scanner state records about the byte values `fed` to the `switch`
so far: in `PREFIX` they end with `+` and the accumulated bytes, in
`SEP_SPACE` with `+`, the expected prefix and `:`, in `CONTENT` with the whole
header and the captured bytes, none of which is `\n`; outside `CONTENT`
nothing has been captured. -/
def ScanInv (response : List Nat) (fed : List Nat) (s : Scan) : Prop :=
  match s.state with
  | READ_STATE_IDLE => s.ptr = 0
  | READ_STATE_PREFIX =>
    s.ptr = 0 ∧ ∃ p pre, s.prefix_ptr = some p ∧ p ≤ s.prefix_buf.length ∧
      fed = pre ++ [43] ++ s.prefix_buf.take p
  | READ_STATE_SEP_SPACE => s.ptr = 0 ∧ ∃ pre, fed = pre ++ [43] ++ response ++ [58]
  | READ_STATE_CONTENT =>
    s.ptr ≤ s.buf.length ∧ 10 ∉ s.buf.take s.ptr ∧
      ∃ pre, fed = pre ++ [43] ++ response ++ [58, 32] ++ s.buf.take s.ptr

/-- The substring of `frame` of width `len` at offset `offset`. -/
def field (frame : List Nat) (offset len : Nat) : List Nat := (frame.drop offset).take len

/-- Every byte of `s` is an ASCII decimal digit. -/
def AllDigits (s : List Nat) : Prop := ∀ b ∈ s, 48 ≤ b ∧ b ≤ 57

instance (s : List Nat) : Decidable (AllDigits s) := by
  unfold AllDigits; infer_instance

/-- The base-10 value of a string of ASCII decimal digits. -/
def decimal_value (s : List Nat) : Nat := s.foldl (fun a b => 10 * a + (b - 48)) 0

/-- The string `ds` is the run of decimal digits at the start of `s`: it is not
empty, and in `s` it is followed by a byte that is not a digit or by nothing. -/
def LeadingDigits (s ds : List Nat) : Prop :=
  ds ≠ [] ∧ AllDigits ds ∧
    ∃ rest, s = ds ++ rest ∧ ∀ b, rest.head? = some b → ¬ (48 ≤ b ∧ b ≤ 57)

/-- The string `s` is the decimal representation of `n`, padded with zeros on
the left to at least `w` digits and no further. -/
def ZeroPadded (w n : Nat) (s : List Nat) : Prop :=
  AllDigits s ∧ decimal_value s = n ∧ w ≤ s.length ∧ (w < s.length → s.head? ≠ some 48)

/-- The string `s` without its leading white space and one sign, if any. -/
def skip_space_sign (s : List Nat) : List Nat :=
  match s.dropWhile isspace with
  | 45 :: r => r
  | 43 :: r => r
  | r => r

/-- After optional leading white space and one optional sign, `s` continues
with a decimal digit. -/
def starts_number (s : List Nat) : Bool :=
  match skip_space_sign s with
  | b :: _ => isdigit b
  | [] => false

/-- The calls of `set_date_and_time` among the actions. -/
def clock_sets : List Action → List (List Nat)
  | [] => []
  | .set_date_and_time f :: rest => f :: clock_sets rest
  | _ :: rest => clock_sets rest

/-- The outcome is a return with a non-negative value. -/
def Outcome.success : Outcome → Bool
  | .returned r _ => decide (0 ≤ r)
  | _ => false

/-- The outcome is a store outside an array. -/
def Outcome.faulted : Outcome → Bool
  | .fault _ => true
  | _ => false

/-- The scanner state of an outcome. -/
def Outcome.scan : Outcome → Scan
  | .running s => s
  | .returned _ s => s
  | .fault s => s

/-- An indeterminate memory that happens to be all zero. -/
def zeroGarbage : Garbage :=
  { prefix_buf := fun _ => 0, input_char := 0, buf := fun _ => 0, fields := fun _ => 0 }


/-! ## The loop and the byte-level machine -/

theorem run_not_running (st : Int) (resp : List Nat) (o : Outcome) (evs : List Event)
    (h : ∀ s, o ≠ .running s) : run st resp o evs = o := by
  cases o with
  | running s => exact absurd rfl (h s)
  | returned r s => cases evs <;> rfl
  | fault s => cases evs <;> rfl

theorem run_nil (st : Int) (resp : List Nat) (o : Outcome) : run st resp o [] = o := by
  cases o <;> rfl

theorem run_append (st : Int) (resp : List Nat) (o : Outcome) (a b : List Event) :
    run st resp o (a ++ b) = run st resp (run st resp o a) b := by
  induction a generalizing o with
  | nil => simp [run_nil]
  | cons e es ih =>
    cases o with
    | running s => simp only [List.cons_append, run]; exact ih _
    | returned r s => simp [run]
    | fault s => simp [run]

theorem feed_nil (resp : List Nat) (o : Outcome) : feed resp o [] = o := by
  cases o <;> rfl

theorem feed_not_running (resp : List Nat) (o : Outcome) (bs : List Nat)
    (h : ∀ s, o ≠ .running s) : feed resp o bs = o := by
  cases o with
  | running s => exact absurd rfl (h s)
  | returned r s => cases bs <;> rfl
  | fault s => cases bs <;> rfl

theorem feed_append (resp : List Nat) (o : Outcome) (a b : List Nat) :
    feed resp o (a ++ b) = feed resp (feed resp o a) b := by
  induction a generalizing o with
  | nil => simp [feed_nil]
  | cons e es ih =>
    cases o with
    | running s => simp only [List.cons_append, feed]; exact ih _
    | returned r s => simp [feed]
    | fault s => simp [feed]

/-- The `switch` statement never assigns `input_char`. -/
theorem dispatch_input_char (resp : List Nat) (s : Scan) :
    (dispatch resp s).scan.input_char = s.input_char := by
  unfold dispatch
  split
  · split <;> rfl
  · split
    · rfl
    · split
      · split
        · rfl
        · split
          · rfl
          · split <;> rfl
      · split <;> rfl
  · split <;> rfl
  · split
    · split <;> rfl
    · split <;> rfl

/-- Without a timeout the loop is the byte-level machine run on the consumed bytes. -/
theorem run_eq_feed (st : Int) (resp : List Nat) (s : Scan) (evs : List Event)
    (h : InDeadline st evs) :
    run st resp (.running s) evs = feed resp (.running s) (consumed s.input_char evs) := by
  induction evs generalizing s with
  | nil => rfl
  | cons e es ih =>
    have he : ¬ (e.clock - st > RESPONSE_TIMEOUT) := by
      have := h e (List.mem_cons_self _ _); omega
    have hes : InDeadline st es := fun x hx => h x (List.mem_cons_of_mem _ hx)
    rcases e with ⟨t, r⟩
    cases r with
    | data b =>
      simp only [run, iteration, he, if_false, consumed, feed]
      have hc := dispatch_input_char resp { s with input_char := b }
      cases hd : dispatch resp { s with input_char := b } with
      | running s' =>
        rw [hd] at hc
        have : s'.input_char = b := hc
        rw [ih s' hes, this]
      | returned r s' => rw [run_not_running _ _ _ _ (by simp), feed_not_running _ _ _ (by simp)]
      | fault s' => rw [run_not_running _ _ _ _ (by simp), feed_not_running _ _ _ (by simp)]
    | eof =>
      simp only [run, iteration, he, if_false, consumed, feed]
      have hc := dispatch_input_char resp s
      have hs : ({ s with input_char := s.input_char } : Scan) = s := rfl
      rw [hs]
      cases hd : dispatch resp s with
      | running s' =>
        rw [hd] at hc
        have : s'.input_char = s.input_char := hc
        rw [ih s' hes, this]
      | returned r s' => rw [run_not_running _ _ _ _ (by simp), feed_not_running _ _ _ (by simp)]
      | fault s' => rw [run_not_running _ _ _ _ (by simp), feed_not_running _ _ _ (by simp)]
    | error =>
      simp only [run, iteration, he, if_false, consumed]
      exact ih s hes

/-- When no read returns 0, the consumed bytes are the received bytes. -/
theorem consumed_of_receives (c : Nat) (evs : List Event) (stream : List Nat)
    (h : Receives evs stream) : consumed c evs = stream := by
  obtain ⟨h1, h2⟩ := h
  subst h1
  induction evs generalizing c with
  | nil => rfl
  | cons e es ih =>
    have hes : ∀ x ∈ es, x.read ≠ ReadResult.eof := fun x hx => h2 x (List.mem_cons_of_mem _ hx)
    have he := h2 e (List.mem_cons_self _ _)
    rcases e with ⟨t, r⟩
    cases r with
    | data b => simp only [consumed, received]; rw [ih b hes]
    | eof => exact absurd rfl he
    | error => simp only [consumed, received]; exact ih c hes

theorem read_response_of_delivers (g : Garbage) (st : Int) (evs : List Event) (resp buf : List Nat)
    (n : Int) (stream : List Nat) (h : Delivers st evs stream) :
    read_response g st evs resp buf n = feed resp (.running (read_response_init g buf)) stream := by
  unfold read_response
  rw [run_eq_feed _ _ _ _ h.2, consumed_of_receives _ _ _ h.1]

theorem delivers_deliver (st : Int) (stream : List Nat) : Delivers st (deliver st stream) stream := by
  refine ⟨⟨?_, ?_⟩, ?_⟩
  · induction stream with
    | nil => rfl
    | cons b bs ih => simp only [deliver, List.map_cons, received] at ih ⊢; rw [ih]
  · intro e he
    simp only [deliver, List.mem_map] at he
    obtain ⟨b, _, rfl⟩ := he
    simp
  · intro e he
    simp only [deliver, List.mem_map] at he
    obtain ⟨b, _, rfl⟩ := he
    simp [RESPONSE_TIMEOUT]

theorem delivers_deliver_polling (st : Int) (stream : List Nat) :
    Delivers st (deliver_polling st stream) stream := by
  induction stream with
  | nil => exact ⟨⟨rfl, by simp [deliver_polling]⟩, by simp [deliver_polling, InDeadline]⟩
  | cons b bs ih =>
    obtain ⟨⟨h1, h2⟩, h3⟩ := ih
    refine ⟨⟨?_, ?_⟩, ?_⟩
    · simp only [deliver_polling, received]; rw [h1]
    · intro e he
      simp only [deliver_polling, List.mem_cons] at he
      rcases he with rfl | rfl | he
      · simp
      · simp
      · exact h2 e he
    · intro e he
      simp only [deliver_polling, List.mem_cons] at he
      rcases he with rfl | rfl | he
      · simp [RESPONSE_TIMEOUT]
      · simp [RESPONSE_TIMEOUT]
      · exact h3 e he

/-! ## String comparison and stores -/

theorem strncmp_eq_iff (a b : List Nat) (hb : 0 ∉ b) :
    strncmp_eq a b b.length = true ↔ a.take b.length = b := by
  induction b generalizing a with
  | nil => simp [strncmp_eq]
  | cons x b ih =>
    have hx : x ≠ 0 := fun h => hb (by simp [h])
    have hb' : 0 ∉ b := fun h => hb (List.mem_cons_of_mem _ h)
    cases a with
    | nil =>
      simp [strncmp_eq, hx, Ne.symm hx]
    | cons y a =>
      simp only [List.length_cons, strncmp_eq, List.headD_cons, List.tail_cons, List.take_succ_cons,
        List.cons.injEq]
      by_cases hyx : y = x
      · subst hyx
        simp [hx, ih a hb']
      · simp [hyx]

theorem store_some (mem : List Nat) (i v : Nat) (h : i < mem.length) :
    store mem i v = some (mem.set i v) := by
  simp [store, h]

theorem store_none (mem : List Nat) (i v : Nat) (h : mem.length ≤ i) :
    store mem i v = none := by
  simp [store, Nat.not_lt.mpr h]

theorem take_succ_set (mem : List Nat) (i v : Nat) (h : i < mem.length) :
    (mem.set i v).take (i + 1) = mem.take i ++ [v] := by
  induction mem generalizing i with
  | nil => simp at h
  | cons x xs ih =>
    cases i with
    | zero => simp
    | succ j =>
      simp only [List.length_cons, Nat.add_lt_add_iff_right] at h
      simp [ih j h]

/-! ## Forward simulation of the byte-level machine -/

/-- In `IDLE` every byte other than `+` is skipped. -/
theorem feed_idle (resp : List Nat) (s : Scan) (pre : List Nat)
    (hs : s.state = READ_STATE_IDLE) (hp : 43 ∉ pre) :
    ∃ s', feed resp (.running s) pre = .running s' ∧ s'.state = READ_STATE_IDLE ∧
      s'.prefix_buf = s.prefix_buf ∧ s'.buf = s.buf ∧ s'.ptr = s.ptr := by
  induction pre generalizing s with
  | nil => exact ⟨s, rfl, hs, rfl, rfl, rfl⟩
  | cons b bs ih =>
    have hb : b ≠ 43 := fun h => hp (by simp [h])
    have hbs : 43 ∉ bs := fun h => hp (List.mem_cons_of_mem _ h)
    have hd : dispatch resp { s with input_char := b } = .running { s with input_char := b } := by
      simp [dispatch, hs, hb]
    obtain ⟨s', h1, h2, h3, h4, h5⟩ := ih { s with input_char := b } hs hbs
    exact ⟨s', by simp only [feed, hd]; exact h1, h2, h3, h4, h5⟩

/-- In `PREFIX` bytes other than `:` are appended to the accumulator while it has room. -/
theorem feed_prefix (resp : List Nat) (w : List Nat) (s : Scan) (p : Nat)
    (hs : s.state = READ_STATE_PREFIX) (hp : s.prefix_ptr = some p) (hw : 58 ∉ w)
    (hroom : p + w.length ≤ s.prefix_buf.length) :
    ∃ s', feed resp (.running s) w = .running s' ∧ s'.state = READ_STATE_PREFIX ∧
      s'.prefix_ptr = some (p + w.length) ∧
      s'.prefix_buf.take (p + w.length) = s.prefix_buf.take p ++ w ∧
      s'.prefix_buf.length = s.prefix_buf.length ∧ s'.buf = s.buf ∧ s'.ptr = s.ptr := by
  induction w generalizing s p with
  | nil => exact ⟨s, rfl, hs, by simpa using hp, by simp, rfl, rfl, rfl⟩
  | cons b bs ih =>
    have hb : b ≠ 58 := fun h => hw (by simp [h])
    have hbs : 58 ∉ bs := fun h => hw (List.mem_cons_of_mem _ h)
    simp only [List.length_cons] at hroom
    have hlt : p < s.prefix_buf.length := by omega
    have hd : dispatch resp { s with input_char := b } =
        .running { s with input_char := b, prefix_buf := s.prefix_buf.set p b,
                          prefix_ptr := some (p + 1) } := by
      simp [dispatch, hs, hp, hb, store_some _ _ _ hlt]
    obtain ⟨s', h1, h2, h3, h4, h5, h6, h7⟩ :=
      ih { s with input_char := b, prefix_buf := s.prefix_buf.set p b, prefix_ptr := some (p + 1) }
        (p + 1) hs rfl hbs (by simp; omega)
    refine ⟨s', ?_, h2, ?_, ?_, ?_, h6, h7⟩
    · simp only [feed, hd]; exact h1
    · rw [h3]; simp only [List.length_cons]; congr 1; omega
    · have e : p + (bs.length + 1) = p + 1 + bs.length := by omega
      simp only [List.length_cons]
      rw [e, h4]
      simp only [take_succ_set _ _ _ hlt, List.append_assoc, List.singleton_append]
    · rw [h5]; simp

/-- In `CONTENT` bytes other than `\n` are appended to the buffer while it has room. -/
theorem feed_content (resp : List Nat) (c : List Nat) (s : Scan)
    (hs : s.state = READ_STATE_CONTENT) (hc : 10 ∉ c)
    (hroom : s.ptr + c.length ≤ s.buf.length) :
    ∃ s', feed resp (.running s) c = .running s' ∧ s'.state = READ_STATE_CONTENT ∧
      s'.ptr = s.ptr + c.length ∧
      s'.buf.take (s.ptr + c.length) = s.buf.take s.ptr ++ c ∧
      s'.buf.length = s.buf.length := by
  induction c generalizing s with
  | nil => exact ⟨s, rfl, hs, by simp, by simp, rfl⟩
  | cons b bs ih =>
    have hb : b ≠ 10 := fun h => hc (by simp [h])
    have hbs : 10 ∉ bs := fun h => hc (List.mem_cons_of_mem _ h)
    simp only [List.length_cons] at hroom
    have hlt : s.ptr < s.buf.length := by omega
    have hd : dispatch resp { s with input_char := b } =
        .running { s with input_char := b, buf := s.buf.set s.ptr b, ptr := s.ptr + 1 } := by
      simp [dispatch, hs, hb, store_some _ _ _ hlt]
    obtain ⟨s', h1, h2, h3, h4, h5⟩ :=
      ih { s with input_char := b, buf := s.buf.set s.ptr b, ptr := s.ptr + 1 } hs hbs
        (by simp; omega)
    refine ⟨s', ?_, h2, ?_, ?_, ?_⟩
    · simp only [feed, hd]; exact h1
    · rw [h3]; simp only [List.length_cons]; omega
    · have e : s.ptr + (bs.length + 1) = s.ptr + 1 + bs.length := by omega
      simp only [List.length_cons]
      rw [e, h4]
      simp only [take_succ_set _ _ _ hlt, List.append_assoc, List.singleton_append]
    · rw [h5]; simp

/-- From `IDLE`, the header `+`, the expected prefix, `:` and a space lead to `CONTENT`. -/
theorem feed_header (resp : List Nat) (s : Scan) (hs : s.state = READ_STATE_IDLE)
    (h0 : 0 ∉ resp) (h58 : 58 ∉ resp) (hroom : resp.length < s.prefix_buf.length) :
    ∃ s', feed resp (.running s) ([43] ++ resp ++ [58, 32]) = .running s' ∧
      s'.state = READ_STATE_CONTENT ∧ s'.buf = s.buf ∧ s'.ptr = s.ptr := by
  have hplus : dispatch resp { s with input_char := 43 } =
      .running { s with input_char := 43, state := READ_STATE_PREFIX, prefix_ptr := some 0 } := by
    simp [dispatch, hs]
  obtain ⟨s1, h1, h2, h3, h4, h5, h6, h7⟩ :=
    feed_prefix resp resp
      { s with input_char := 43, state := READ_STATE_PREFIX, prefix_ptr := some 0 } 0 rfl rfl h58
      (by simp; omega)
  simp only [Nat.zero_add, List.take_zero, List.nil_append] at h3 h4
  have hcmp : strncmp_eq s1.prefix_buf resp resp.length = true := (strncmp_eq_iff _ _ h0).2 h4
  have hlt : resp.length < s1.prefix_buf.length := by rw [h5]; simpa using hroom
  have hcolon : dispatch resp { s1 with input_char := 58 } =
      .running { s1 with input_char := 58, state := READ_STATE_SEP_SPACE,
                         prefix_buf := s1.prefix_buf.set resp.length 58,
                         prefix_ptr := some (resp.length + 1) } := by
    simp [dispatch, h2, h3, hcmp, store_some _ _ _ hlt]
  refine ⟨{ s1 with input_char := 32, state := READ_STATE_CONTENT,
                    prefix_buf := s1.prefix_buf.set resp.length 58,
                    prefix_ptr := some (resp.length + 1) }, ?_, rfl, h6, h7⟩
  rw [List.append_assoc, List.singleton_append, feed, hplus, feed_append, h1]
  simp only [feed, hcolon]

theorem cstr_of_take (mem c : List Nat) (hc : 0 ∉ c) (ht : mem.take c.length = c)
    (hz : mem.getD c.length 1 = 0) : cstr mem = c := by
  induction c generalizing mem with
  | nil =>
    cases mem with
    | nil => rfl
    | cons x xs =>
      simp only [List.length_nil, List.getD_cons_zero] at hz
      simp [cstr, List.takeWhile, hz]
  | cons y ys ih =>
    have hy : y ≠ 0 := fun h => hc (by simp [h])
    have hys : 0 ∉ ys := fun h => hc (List.mem_cons_of_mem _ h)
    cases mem with
    | nil => simp at ht
    | cons x xs =>
      simp only [List.length_cons, List.take_succ_cons, List.cons.injEq] at ht
      simp only [List.length_cons, List.getD_cons_succ] at hz
      have := ih xs hys ht.2 hz
      simp only [cstr] at this ⊢
      have hy' : (y != 0) = true := by simpa using hy
      simp [List.takeWhile, ht.1, hy', this]

theorem header_bytes : bytes "+QLTS: " = [43] ++ bytes "QLTS" ++ [58, 32] := by decide

/-- From `CONTENT`, content followed by `\n` is returned with its length. -/
theorem feed_frame_end (resp : List Nat) (c : List Nat) (s : Scan)
    (hs : s.state = READ_STATE_CONTENT) (hp : s.ptr = 0) (hc : 10 ∉ c)
    (hroom : c.length < s.buf.length) :
    ∃ s', feed resp (.running s) (c ++ [10]) = .returned (c.length : Int) s' ∧
      s'.buf.take c.length = c ∧ s'.buf.getD c.length 1 = 0 ∧ s'.buf.length = s.buf.length := by
  obtain ⟨s1, h1, h2, h3, h4, h5⟩ := feed_content resp c s hs hc (by omega)
  simp only [hp, Nat.zero_add, List.take_zero, List.nil_append] at h3 h4
  have hlt : s1.ptr < s1.buf.length := by omega
  refine ⟨{ s1 with input_char := 10, buf := s1.buf.set s1.ptr 0 }, ?_, ?_, ?_, ?_⟩
  · rw [feed_append, h1]
    simp [feed, dispatch, h2, store_some _ _ _ hlt]
    exact h3
  · have := take_succ_set s1.buf s1.ptr 0 hlt
    have h6 : ((s1.buf.set s1.ptr 0).take (s1.ptr + 1)).take s1.ptr = s1.buf.take s1.ptr := by
      rw [this]; simp [List.take_append_eq_append_take, List.length_take, Nat.min_eq_left (Nat.le_of_lt hlt)]
    rw [List.take_take, Nat.min_eq_left (Nat.le_succ _)] at h6
    simp only
    rw [← h3, h6, h3, h4]
  · simp only
    rw [← h3, List.getD_eq_getElem?_getD, List.getElem?_set_self hlt]
    rfl
  · simp [h5]

/-- From `IDLE` with an empty buffer, a whole frame is captured. -/
theorem feed_frame (s : Scan) (c : List Nat) (hs : s.state = READ_STATE_IDLE) (hp : s.ptr = 0)
    (hpb : s.prefix_buf.length = 32) (hc : 10 ∉ c) (hlen : c.length < s.buf.length) :
    ∃ s', feed (bytes "QLTS") (.running s) (bytes "+QLTS: " ++ c ++ [10])
        = .returned (c.length : Int) s' ∧
      s'.buf.take c.length = c ∧ s'.buf.getD c.length 1 = 0 ∧ s'.buf.length = s.buf.length ∧
      (0 ∉ c → cstr s'.buf = c) := by
  have hroom : (bytes "QLTS").length < s.prefix_buf.length := by rw [hpb]; decide
  obtain ⟨s2, k1, k2, k3, k4⟩ := feed_header (bytes "QLTS") s hs (by decide) (by decide) hroom
  obtain ⟨s3, m1, m2, m3, m4⟩ :=
    feed_frame_end (bytes "QLTS") c s2 k2 (by rw [k4, hp]) hc (by rw [k3]; exact hlen)
  refine ⟨s3, ?_, m2, m3, by rw [m4, k3], fun h0 => cstr_of_take _ _ h0 m2 m3⟩
  rw [header_bytes, List.append_assoc, feed_append, k1]
  exact m1

/-- A noise line is skipped: the scanner is back in `IDLE` with the buffer untouched. -/
theorem feed_noise_line (resp : List Nat) (s : Scan) (p r : List Nat)
    (hs : s.state = READ_STATE_IDLE) (h0 : 0 ∉ resp) (hp : 58 ∉ p) (hne : p ≠ resp)
    (hlen : p.length ≤ s.prefix_buf.length) (hr : 43 ∉ r) :
    ∃ s', feed resp (.running s) ([43] ++ p ++ [58] ++ r) = .running s' ∧
      s'.state = READ_STATE_IDLE ∧ s'.prefix_buf.length = s.prefix_buf.length ∧
      s'.buf = s.buf ∧ s'.ptr = s.ptr := by
  have hplus : dispatch resp { s with input_char := 43 } =
      .running { s with input_char := 43, state := READ_STATE_PREFIX, prefix_ptr := some 0 } := by
    simp [dispatch, hs]
  obtain ⟨s1, h1, h2, h3, h4, h5, h6, h7⟩ :=
    feed_prefix resp p
      { s with input_char := 43, state := READ_STATE_PREFIX, prefix_ptr := some 0 } 0 rfl rfl hp
      (by simp; omega)
  simp only [Nat.zero_add, List.take_zero, List.nil_append] at h3 h4
  have hcolon : dispatch resp { s1 with input_char := 58 } =
      .running { s1 with input_char := 58, state := READ_STATE_IDLE } := by
    by_cases hl : p.length = resp.length
    · have hcmp : strncmp_eq s1.prefix_buf resp resp.length = false := by
        rw [Bool.eq_false_iff]
        intro h
        have := (strncmp_eq_iff _ _ h0).1 h
        rw [← hl, h4] at this
        exact hne this
      simp [dispatch, h2, h3, hl, hcmp]
    · simp [dispatch, h2, h3, hl]
  obtain ⟨s2, k1, k2, k3, k4, k5⟩ :=
    feed_idle resp { s1 with input_char := 58, state := READ_STATE_IDLE } r rfl hr
  refine ⟨s2, ?_, k2, ?_, ?_, ?_⟩
  · rw [List.append_assoc, List.append_assoc, List.singleton_append, feed, hplus, feed_append, h1,
      List.singleton_append, feed, hcolon]
    exact k1
  · rw [k3]; exact h5
  · rw [k4]; exact h6
  · rw [k5]; exact h7

theorem feed_noise (resp : List Nat) (segs : List (List Nat × List Nat)) (s : Scan)
    (hs : s.state = READ_STATE_IDLE) (h0 : 0 ∉ resp)
    (hsegs : ∀ seg ∈ segs, NoiseLine resp s.prefix_buf.length seg) :
    ∃ s', feed resp (.running s) (noise segs) = .running s' ∧
      s'.state = READ_STATE_IDLE ∧ s'.prefix_buf.length = s.prefix_buf.length ∧
      s'.buf = s.buf ∧ s'.ptr = s.ptr := by
  induction segs generalizing s with
  | nil => exact ⟨s, rfl, hs, rfl, rfl, rfl⟩
  | cons seg rest ih =>
    obtain ⟨p, r⟩ := seg
    obtain ⟨a1, a2, a3, a4⟩ := hsegs (p, r) (List.mem_cons_self _ _)
    obtain ⟨s1, h1, h2, h3, h4, h5⟩ := feed_noise_line resp s p r hs h0 a1 a2 a3 a4
    obtain ⟨s2, k1, k2, k3, k4, k5⟩ := ih s1 h2
      (fun x hx => by rw [h3]; exact hsegs x (List.mem_cons_of_mem _ hx))
    refine ⟨s2, ?_, k2, by rw [k3, h3], by rw [k4, h4], by rw [k5, h5]⟩
    simp only [noise]
    rw [feed_append, h1]
    exact k1

/-- The scan of a delivered frame: the return value, the captured C string and the size of
the buffer afterwards. -/
theorem frame_scan (g : Garbage) (st : Int) (evs more : List Event) (buf : List Nat) (n : Int)
    (preamble c : List Nat) (hpre : 43 ∉ preamble) (hc : 10 ∉ c) (h0 : 0 ∉ c)
    (hlen : c.length < buf.length)
    (hev : Delivers st evs (preamble ++ bytes "+QLTS: " ++ c ++ [10])) :
    ∃ s, read_response g st (evs ++ more) (bytes "QLTS") buf n = .returned (c.length : Int) s ∧
      s.buf.take c.length = c ∧ cstr s.buf = c ∧ s.buf.length = buf.length := by
  have hrun : ∃ s, read_response g st evs (bytes "QLTS") buf n = .returned (c.length : Int) s ∧
      s.buf.take c.length = c ∧ cstr s.buf = c ∧ s.buf.length = buf.length := by
    rw [read_response_of_delivers g st evs _ buf n _ hev]
    obtain ⟨s1, h1, h2, h3, h4, h5⟩ :=
      feed_idle (bytes "QLTS") (read_response_init g buf) preamble rfl hpre
    obtain ⟨s3, m1, m2, m3, m4, m5⟩ := feed_frame s1 c h2 (by rw [h5]; rfl)
      (by rw [h3]; simp [read_response_init]) hc (by rw [h4]; exact hlen)
    refine ⟨s3, ?_, m2, m5 h0, by rw [m4, h4]; rfl⟩
    rw [List.append_assoc, List.append_assoc, feed_append, h1, ← List.append_assoc]
    exact m1
  obtain ⟨s, h1, h2, h3, h4⟩ := hrun
  refine ⟨s, ?_, h2, h3, h4⟩
  unfold read_response at h1 ⊢
  rw [run_append, h1, run_not_running _ _ _ _ (by simp)]

/-- Claim C1.  A stream made of a preamble without `+`, the header `+QLTS: `, content `c`
without `\n` that is shorter than the buffer, and `\n`, delivered without a timeout (with
any number of reads without data in between), makes
`read_response` with expected prefix `QLTS` return `|c|`; the buffer then starts with `c`
followed by a NUL (so it holds the C string `c` when `c` has no NUL byte). -/
theorem read_response_captures_frame (g : Garbage) (start_time : Int) (evs : List Event)
    (buf : List Nat) (buf_size : Int) (preamble c : List Nat)
    (hpre : 43 ∉ preamble) (hc : 10 ∉ c) (hlen : c.length < buf.length)
    (hev : Delivers start_time evs (preamble ++ bytes "+QLTS: " ++ c ++ [10])) :
    ∃ s, read_response g start_time evs (bytes "QLTS") buf buf_size = .returned (c.length : Int) s ∧
      s.buf.take c.length = c ∧ s.buf.getD c.length 1 = 0 ∧ s.buf.length = buf.length ∧
      (0 ∉ c → cstr s.buf = c) := by
  rw [read_response_of_delivers g start_time evs _ buf buf_size _ hev]
  obtain ⟨s1, h1, h2, h3, h4, h5⟩ :=
    feed_idle (bytes "QLTS") (read_response_init g buf) preamble rfl hpre
  obtain ⟨s3, m1, m2, m3, m4, m5⟩ := feed_frame s1 c h2 (by rw [h5]; rfl)
    (by rw [h3]; simp [read_response_init]) hc (by rw [h4]; exact hlen)
  refine ⟨s3, ?_, m2, m3, by rw [m4, h4]; rfl, m5⟩
  rw [List.append_assoc, List.append_assoc, feed_append, h1, ← List.append_assoc]
  exact m1

/-- The reference reply after `\r\nOK\r\n`, every byte arriving at the second read, is
captured in a 256-byte buffer. -/
theorem read_response_captures_frame_witness :
    ∃ s, read_response zeroGarbage 0
        (deliver_polling 0
          (bytes "\r\nOK\r\n" ++ bytes "+QLTS: " ++ bytes "\"2023/10/07,23:07:16+08,1\"" ++ [10]))
        (bytes "QLTS") (List.replicate 256 0) 256
        = .returned ((bytes "\"2023/10/07,23:07:16+08,1\"").length : Int) s ∧
      s.buf.take (bytes "\"2023/10/07,23:07:16+08,1\"").length = bytes "\"2023/10/07,23:07:16+08,1\"" ∧
      s.buf.getD (bytes "\"2023/10/07,23:07:16+08,1\"").length 1 = 0 ∧
      s.buf.length = (List.replicate 256 0).length ∧
      (0 ∉ bytes "\"2023/10/07,23:07:16+08,1\"" → cstr s.buf = bytes "\"2023/10/07,23:07:16+08,1\"") :=
  read_response_captures_frame zeroGarbage 0 _ (List.replicate 256 0) 256 (bytes "\r\nOK\r\n")
    (bytes "\"2023/10/07,23:07:16+08,1\"") (by decide) (by decide)
    (by rw [List.length_replicate]; decide)
    (delivers_deliver_polling 0 _)

/-- Claim C2, as stated, fails: after the noise `+FOO\n`, which has no `:`, the true frame is
swallowed by the prefix accumulator and nothing is captured. -/
theorem read_response_noise_without_colon :
    (read_response zeroGarbage 0
      (deliver 0 (bytes "+FOO\n" ++ bytes "+QLTS: " ++ bytes "\"2023/10/07,23:07:16+08,1\"" ++ [10]))
      (bytes "QLTS") (List.replicate 64 0) 64).success = false := by
  decide

/-- Claim C2, amended.  After any number of noise lines `+p:r` (`p` without `:`, different from
`QLTS` and at most 32 bytes long, `r` without `+`), a true frame `+QLTS: c\n` whose content has
no `\n` and is shorter than the buffer is captured exactly. -/
theorem read_response_recovers_from_noise (g : Garbage) (start_time : Int) (evs : List Event)
    (buf : List Nat) (buf_size : Int) (segs : List (List Nat × List Nat)) (c : List Nat)
    (hsegs : ∀ seg ∈ segs, NoiseLine (bytes "QLTS") 32 seg)
    (hc : 10 ∉ c) (hlen : c.length < buf.length)
    (hev : Delivers start_time evs (noise segs ++ bytes "+QLTS: " ++ c ++ [10])) :
    ∃ s, read_response g start_time evs (bytes "QLTS") buf buf_size = .returned (c.length : Int) s ∧
      s.buf.take c.length = c ∧ s.buf.getD c.length 1 = 0 ∧ s.buf.length = buf.length ∧
      (0 ∉ c → cstr s.buf = c) := by
  rw [read_response_of_delivers g start_time evs _ buf buf_size _ hev]
  have hpb : (read_response_init g buf).prefix_buf.length = 32 := by simp [read_response_init]
  obtain ⟨s1, h1, h2, h3, h4, h5⟩ :=
    feed_noise (bytes "QLTS") segs (read_response_init g buf) rfl (by decide)
      (by rw [hpb]; exact hsegs)
  obtain ⟨s3, m1, m2, m3, m4, m5⟩ := feed_frame s1 c h2 (by rw [h5]; rfl)
    (by rw [h3, hpb]) hc (by rw [h4]; exact hlen)
  refine ⟨s3, ?_, m2, m3, by rw [m4, h4]; rfl, m5⟩
  rw [List.append_assoc, List.append_assoc, feed_append, h1, ← List.append_assoc]
  exact m1

/-- The stream `+FOO:bar\n+QLTS: "2023/10/07,23:07:16+08,1"\n` yields the reference frame. -/
theorem read_response_recovers_from_noise_witness :
    ∃ s, read_response zeroGarbage 0
        (deliver 0 (bytes "+FOO:bar\n+QLTS: \"2023/10/07,23:07:16+08,1\"\n"))
        (bytes "QLTS") (List.replicate 256 0) 256 = .returned 26 s ∧
      cstr s.buf = bytes "\"2023/10/07,23:07:16+08,1\"" := by
  have hstream : bytes "+FOO:bar\n+QLTS: \"2023/10/07,23:07:16+08,1\"\n" =
      noise [(bytes "FOO", bytes "bar\n")] ++ bytes "+QLTS: " ++
        bytes "\"2023/10/07,23:07:16+08,1\"" ++ [10] := by decide
  obtain ⟨s, h1, _, _, _, h5⟩ :=
    read_response_recovers_from_noise zeroGarbage 0 _ (List.replicate 256 0) 256
      [(bytes "FOO", bytes "bar\n")] (bytes "\"2023/10/07,23:07:16+08,1\"")
      (by intro seg hseg; simp only [List.mem_singleton] at hseg; subst hseg; decide)
      (by decide) (by rw [List.length_replicate]; decide) (delivers_deliver 0 _)
  rw [hstream]
  exact ⟨s, h1, h5 (by decide)⟩

/-! ## What a successful scan has consumed -/

theorem take_set_self (mem : List Nat) (i v : Nat) : (mem.set i v).take i = mem.take i := by
  induction mem generalizing i with
  | nil => simp
  | cons x xs ih =>
    cases i with
    | zero => simp
    | succ j => simp [ih j]

theorem read_state_cases (x : read_state) :
    x = READ_STATE_IDLE ∨ x = READ_STATE_PREFIX ∨ x = READ_STATE_SEP_SPACE ∨
      x = READ_STATE_CONTENT := by
  cases x <;> simp

/-- One `switch` keeps the invariant, and a return delivers a complete frame. -/
theorem dispatch_inv (resp fed : List Nat) (s : Scan) (b : Nat) (h0 : 0 ∉ resp)
    (hinv : ScanInv resp fed s) :
    match dispatch resp { s with input_char := b } with
    | .running s' => ScanInv resp (fed ++ [b]) s'
    | .returned r s' => 0 ≤ r ∧ 10 ∉ s'.buf.take r.toNat ∧ s'.buf.getD r.toNat 1 = 0 ∧
        ∃ pre, fed ++ [b] = pre ++ [43] ++ resp ++ [58, 32] ++ s'.buf.take r.toNat ++ [10]
    | .fault _ => True := by
  rcases read_state_cases s.state with hst | hst | hst | hst
  ·
    simp only [ScanInv, hst] at hinv
    by_cases hb : b = 43
    · have hd : dispatch resp { s with input_char := b } =
          .running { s with input_char := b, state := READ_STATE_PREFIX, prefix_ptr := some 0 } := by
        simp [dispatch, hst, hb]
      rw [hd]
      exact ⟨hinv, 0, fed, rfl, Nat.zero_le _, by simp [hb]⟩
    · have hd : dispatch resp { s with input_char := b } = .running { s with input_char := b } := by
        simp [dispatch, hst, hb]
      rw [hd]
      show ScanInv resp (fed ++ [b]) _
      simp only [ScanInv, hst]
      exact hinv
  ·
    simp only [ScanInv, hst] at hinv
    obtain ⟨hptr, p, pre, hp, hple, hfed⟩ := hinv
    have hidle : ScanInv resp (fed ++ [b])
        { s with input_char := b, state := READ_STATE_IDLE } := by
      simp only [ScanInv]; exact hptr
    by_cases hlt : p < s.prefix_buf.length
    · by_cases hb : b = 58
      · by_cases hl : p = resp.length
        · cases hcmp : strncmp_eq s.prefix_buf resp resp.length with
          | false =>
            have hd : dispatch resp { s with input_char := b } =
                .running { s with input_char := b, state := READ_STATE_IDLE } := by
              simp [dispatch, hst, hp, hb, hl, hcmp]
            rw [hd]; exact hidle
          | true =>
            have htake := (strncmp_eq_iff _ _ h0).1 hcmp
            subst hl; subst hb
            have hd : dispatch resp { s with input_char := 58 } =
                .running { s with input_char := 58, state := READ_STATE_SEP_SPACE,
                                  prefix_buf := s.prefix_buf.set resp.length 58,
                                  prefix_ptr := some (resp.length + 1) } := by
              simp [dispatch, hst, hp, hcmp, store_some _ _ _ hlt]
            rw [hd]
            show ScanInv resp (fed ++ [58]) _
            simp only [ScanInv]
            refine ⟨hptr, pre, ?_⟩
            rw [hfed, htake]
        · have hd : dispatch resp { s with input_char := b } =
              .running { s with input_char := b, state := READ_STATE_IDLE } := by
            simp [dispatch, hst, hp, hb, hl]
          rw [hd]; exact hidle
      · have hd : dispatch resp { s with input_char := b } =
            .running { s with input_char := b, prefix_buf := s.prefix_buf.set p b,
                              prefix_ptr := some (p + 1) } := by
          simp [dispatch, hst, hp, hb, store_some _ _ _ hlt]
        rw [hd]
        show ScanInv resp (fed ++ [b]) _
        simp only [ScanInv, hst]
        refine ⟨hptr, p + 1, pre, rfl, by simp; omega, ?_⟩
        rw [take_succ_set _ _ _ hlt, hfed]
        simp
    · have hn := store_none s.prefix_buf p b (Nat.not_lt.mp hlt)
      by_cases hb : b = 58
      · by_cases hl : p = resp.length
        · cases hcmp : strncmp_eq s.prefix_buf resp resp.length with
          | false =>
            have hd : dispatch resp { s with input_char := b } =
                .running { s with input_char := b, state := READ_STATE_IDLE } := by
              simp [dispatch, hst, hp, hb, hl, hcmp]
            rw [hd]; exact hidle
          | true =>
            subst hl; subst hb
            have hd : dispatch resp { s with input_char := 58 } =
                .fault { s with input_char := 58 } := by
              simp [dispatch, hst, hp, hcmp, hn]
            rw [hd]; trivial
        · have hd : dispatch resp { s with input_char := b } =
              .running { s with input_char := b, state := READ_STATE_IDLE } := by
            simp [dispatch, hst, hp, hb, hl]
          rw [hd]; exact hidle
      · have hd : dispatch resp { s with input_char := b } = .fault { s with input_char := b } := by
          simp [dispatch, hst, hp, hb, hn]
        rw [hd]; trivial
  ·
    simp only [ScanInv, hst] at hinv
    obtain ⟨hptr, pre, hfed⟩ := hinv
    by_cases hb : b = 32
    · have hd : dispatch resp { s with input_char := b } =
          .running { s with input_char := b, state := READ_STATE_CONTENT } := by
        simp [dispatch, hst, hb]
      rw [hd]
      show ScanInv resp (fed ++ [b]) _
      simp only [ScanInv, hptr]
      refine ⟨Nat.zero_le _, by simp, pre, ?_⟩
      rw [hfed, hb]; simp
    · have hd : dispatch resp { s with input_char := b } =
          .running { s with input_char := b, state := READ_STATE_IDLE } := by
        simp [dispatch, hst, hb]
      rw [hd]
      show ScanInv resp (fed ++ [b]) _
      simp only [ScanInv]; exact hptr
  ·
    simp only [ScanInv, hst] at hinv
    obtain ⟨hple, h10, pre, hfed⟩ := hinv
    by_cases hlt : s.ptr < s.buf.length
    · by_cases hb : b = 10
      · have hd : dispatch resp { s with input_char := b } =
            .returned (s.ptr : Int) { s with input_char := b, buf := s.buf.set s.ptr 0 } := by
          simp [dispatch, hst, hb, store_some _ _ _ hlt]
        rw [hd]
        simp only [Int.toNat_ofNat, take_set_self]
        refine ⟨Int.ofNat_nonneg _, h10, ?_, pre, ?_⟩
        · rw [List.getD_eq_getElem?_getD, List.getElem?_set_self hlt]; rfl
        · rw [hfed, hb]
      · have hd : dispatch resp { s with input_char := b } =
            .running { s with input_char := b, buf := s.buf.set s.ptr b, ptr := s.ptr + 1 } := by
          simp [dispatch, hst, hb, store_some _ _ _ hlt]
        rw [hd]
        show ScanInv resp (fed ++ [b]) _
        simp only [ScanInv, hst]
        refine ⟨by simp; omega, ?_, pre, ?_⟩
        · rw [take_succ_set _ _ _ hlt]
          simp only [List.mem_append, List.mem_singleton, not_or]
          exact ⟨h10, fun h => hb h.symm⟩
        · rw [take_succ_set _ _ _ hlt, hfed]
          simp
    · have hd : dispatch resp { s with input_char := b } = .fault { s with input_char := b } := by
        by_cases hb : b = 10
        · simp [dispatch, hst, hb, store_none _ _ _ (Nat.not_lt.mp hlt)]
        · simp [dispatch, hst, hb, store_none _ _ _ (Nat.not_lt.mp hlt)]
      rw [hd]; trivial

theorem consumed_append (c : Nat) (a b : List Event) :
    ∃ c', consumed c (a ++ b) = consumed c a ++ consumed c' b := by
  induction a generalizing c with
  | nil => exact ⟨c, rfl⟩
  | cons e es ih =>
    rcases e with ⟨t, r⟩
    cases r with
    | data x =>
      obtain ⟨c', h⟩ := ih x
      exact ⟨c', by rw [List.cons_append]; simp only [consumed, h, List.cons_append]⟩
    | eof =>
      obtain ⟨c', h⟩ := ih c
      exact ⟨c', by rw [List.cons_append]; simp only [consumed, h, List.cons_append]⟩
    | error =>
      obtain ⟨c', h⟩ := ih c
      exact ⟨c', by rw [List.cons_append]; simp only [consumed, h, List.cons_append]⟩

/-- An iteration that is not timed out either retries the read or runs the `switch` on
one more consumed byte. -/
theorem iteration_cases (st : Int) (resp : List Nat) (s : Scan) (e : Event)
    (h : ¬ e.clock - st > RESPONSE_TIMEOUT) :
    (iteration st resp s e = .running s ∧
        ∀ es, consumed s.input_char (e :: es) = consumed s.input_char es) ∨
    (∃ b, iteration st resp s e = dispatch resp { s with input_char := b } ∧
        ∀ es, consumed s.input_char (e :: es) = b :: consumed b es) := by
  rcases e with ⟨t, r⟩
  cases r with
  | data x => exact Or.inr ⟨x, by simp only [iteration, h, if_false], fun es => rfl⟩
  | eof => exact Or.inr ⟨s.input_char, by simp only [iteration, h, if_false], fun es => rfl⟩
  | error => exact Or.inl ⟨by simp only [iteration, h, if_false], fun es => rfl⟩

/-- A run that returns a non-negative value has, at the moment of the return, consumed a
complete frame: the header, the returned content without `\n`, and `\n`. -/
theorem run_success (st : Int) (resp : List Nat) (h0 : 0 ∉ resp) (evs : List Event)
    (fed : List Nat) (s : Scan) (r : Int) (s' : Scan) (hinv : ScanInv resp fed s)
    (hrun : run st resp (.running s) evs = .returned r s') (hr : 0 ≤ r) :
    ∃ evs1 rest pre, evs = evs1 ++ rest ∧ run st resp (.running s) evs1 = .returned r s' ∧
      InDeadline st evs1 ∧ 10 ∉ s'.buf.take r.toNat ∧ s'.buf.getD r.toNat 1 = 0 ∧
      fed ++ consumed s.input_char evs1
        = pre ++ [43] ++ resp ++ [58, 32] ++ s'.buf.take r.toNat ++ [10] := by
  induction evs generalizing fed s with
  | nil => simp [run] at hrun
  | cons e es ih =>
    by_cases hto : e.clock - st > RESPONSE_TIMEOUT
    · have hit : iteration st resp s e = .returned (-1) s := by simp [iteration, hto]
      rw [run, hit, run_not_running _ _ _ _ (by simp)] at hrun
      simp only [Outcome.returned.injEq] at hrun
      omega
    · have hdl : e.clock - st ≤ RESPONSE_TIMEOUT := by omega
      rcases iteration_cases st resp s e hto with ⟨hit, hcons⟩ | ⟨b, hit, hcons⟩
      · rw [run, hit] at hrun
        obtain ⟨evs1, rest, pre, h1, h2, h3, h4, h5, h6⟩ := ih fed s hinv hrun
        refine ⟨e :: evs1, rest, pre, by rw [h1]; rfl, ?_, ?_, h4, h5, ?_⟩
        · rw [run, hit]; exact h2
        · intro x hx
          rcases List.mem_cons.1 hx with rfl | hx
          · exact hdl
          · exact h3 x hx
        · rw [hcons]; exact h6
      · have hstep := dispatch_inv resp fed s b h0 hinv
        have hic := dispatch_input_char resp { s with input_char := b }
        rw [run, hit] at hrun
        cases hd : dispatch resp { s with input_char := b } with
        | running s2 =>
          rw [hd] at hstep hrun hic
          have hic2 : s2.input_char = b := hic
          obtain ⟨evs1, rest, pre, h1, h2, h3, h4, h5, h6⟩ := ih (fed ++ [b]) s2 hstep hrun
          refine ⟨e :: evs1, rest, pre, by rw [h1]; rfl, ?_, ?_, h4, h5, ?_⟩
          · rw [run, hit, hd]; exact h2
          · intro x hx
            rcases List.mem_cons.1 hx with rfl | hx
            · exact hdl
            · exact h3 x hx
          · rw [hcons, ← h6, hic2]; simp
        | returned r2 s2 =>
          rw [hd] at hstep hrun
          rw [run_not_running _ _ _ _ (by simp)] at hrun
          simp only [Outcome.returned.injEq] at hrun
          obtain ⟨rfl, rfl⟩ := hrun
          obtain ⟨_, k2, k3, pre, k4⟩ := hstep
          refine ⟨[e], es, pre, rfl, ?_, ?_, k2, k3, ?_⟩
          · rw [run, hit, hd, run_nil]
          · intro x hx
            rw [List.mem_singleton.1 hx]; exact hdl
          · rw [hcons]; exact k4
        | fault s2 =>
          rw [hd, run_not_running _ _ _ _ (by simp)] at hrun
          simp at hrun

theorem scanInv_init (resp : List Nat) (g : Garbage) (buf : List Nat) :
    ScanInv resp [] (read_response_init g buf) := by
  simp [ScanInv, read_response_init]

theorem dispatch_returned (resp : List Nat) (s : Scan) (r : Int) (s' : Scan)
    (h : dispatch resp s = .returned r s') : r = (s.ptr : Int) := by
  unfold dispatch at h
  split at h
  · split at h <;> simp at h
  · split at h
    · simp at h
    · split at h
      · split at h
        · simp at h
        · split at h
          · simp at h
          · split at h <;> simp at h
      · split at h <;> simp at h
  · split at h <;> simp at h
  · split at h
    · split at h
      · simp at h
      · simp only [Outcome.returned.injEq] at h
        exact h.1.symm
    · split at h <;> simp at h

/-- Only a timeout makes the loop return a negative value. -/
theorem run_returned_nonneg (st : Int) (resp : List Nat) (evs : List Event) (s : Scan)
    (r : Int) (s' : Scan) (hd : InDeadline st evs)
    (h : run st resp (.running s) evs = .returned r s') : 0 ≤ r := by
  induction evs generalizing s with
  | nil => simp [run] at h
  | cons e es ih =>
    have hto : ¬ e.clock - st > RESPONSE_TIMEOUT := by
      have := hd e (List.mem_cons_self _ _); omega
    have hes : InDeadline st es := fun x hx => hd x (List.mem_cons_of_mem _ hx)
    rw [run] at h
    rcases iteration_cases st resp s e hto with ⟨hit, _⟩ | ⟨b, hit, _⟩
    · rw [hit] at h; exact ih s hes h
    · rw [hit] at h
      cases hdis : dispatch resp { s with input_char := b } with
      | running s2 => rw [hdis] at h; exact ih s2 hes h
      | returned r2 s2 =>
        rw [hdis, run_not_running _ _ _ _ (by simp)] at h
        simp only [Outcome.returned.injEq] at h
        rw [← h.1, dispatch_returned resp _ r2 s2 hdis]
        exact Int.ofNat_nonneg _
      | fault s2 =>
        rw [hdis, run_not_running _ _ _ _ (by simp)] at h
        simp at h

/-- A successful scan has consumed a complete frame. -/
theorem success_frame (g : Garbage) (st : Int) (evs : List Event) (buf : List Nat)
    (buf_size r : Int) (s : Scan)
    (h : read_response g st evs (bytes "QLTS") buf buf_size = .returned r s) (hr : 0 ≤ r) :
    ∃ evs1 rest pre, evs = evs1 ++ rest ∧
      read_response g st evs1 (bytes "QLTS") buf buf_size = .returned r s ∧
      10 ∉ s.buf.take r.toNat ∧
      consumed g.input_char evs1 = pre ++ bytes "+QLTS: " ++ s.buf.take r.toNat ++ [10] := by
  obtain ⟨evs1, rest, pre, h1, h2, _, h4, _, h6⟩ :=
    run_success st (bytes "QLTS") (by decide) evs [] (read_response_init g buf) r s
      (scanInv_init _ g buf) h hr
  refine ⟨evs1, rest, pre, h1, h2, h4, ?_⟩
  rw [List.nil_append] at h6
  rw [header_bytes]
  simpa using h6

/-- A successful scan has consumed the header. -/
theorem success_header (g : Garbage) (st : Int) (evs : List Event) (buf : List Nat)
    (buf_size : Int)
    (h : (read_response g st evs (bytes "QLTS") buf buf_size).success = true) :
    ∃ pre post, consumed g.input_char evs = pre ++ bytes "+QLTS: " ++ post ∧ 10 ∈ post := by
  cases ho : read_response g st evs (bytes "QLTS") buf buf_size with
  | running s => rw [ho] at h; simp [Outcome.success] at h
  | fault s => rw [ho] at h; simp [Outcome.success] at h
  | returned r s =>
    rw [ho] at h
    have hr : 0 ≤ r := by simpa [Outcome.success] using h
    obtain ⟨evs1, rest, pre, h1, _, _, h4⟩ := success_frame g st evs buf buf_size r s ho hr
    obtain ⟨c', hc⟩ := consumed_append g.input_char evs1 rest
    refine ⟨pre, s.buf.take r.toNat ++ [10] ++ consumed c' rest, ?_, by simp⟩
    rw [h1, hc, h4]
    simp

/-- Claim C3.  Whenever `read_response` with expected prefix `QLTS` returns success, the
events up to the return have consumed bytes that end with the contiguous header `+QLTS: `,
the returned content and `\n`; hence no stream of bytes without the contiguous header
`+QLTS: ` is ever captured, whatever the clock readings and the reads without data. -/
theorem read_response_success_needs_header :
    (∀ (g : Garbage) (start_time : Int) (evs : List Event) (buf : List Nat)
        (buf_size r : Int) (s : Scan),
      read_response g start_time evs (bytes "QLTS") buf buf_size = .returned r s → 0 ≤ r →
      ∃ evs1 rest pre, evs = evs1 ++ rest ∧
        read_response g start_time evs1 (bytes "QLTS") buf buf_size = .returned r s ∧
        consumed g.input_char evs1 = pre ++ bytes "+QLTS: " ++ s.buf.take r.toNat ++ [10]) ∧
    (∀ (g : Garbage) (start_time : Int) (evs : List Event) (buf : List Nat) (buf_size : Int)
        (stream : List Nat),
      Receives evs stream → ¬ (bytes "+QLTS: " <:+: stream) →
      (read_response g start_time evs (bytes "QLTS") buf buf_size).success = false) := by
  constructor
  · intro g st evs buf buf_size r s h hr
    obtain ⟨evs1, rest, pre, h1, h2, _, h4⟩ := success_frame g st evs buf buf_size r s h hr
    exact ⟨evs1, rest, pre, h1, h2, h4⟩
  · intro g st evs buf buf_size stream hev hno
    rw [Bool.eq_false_iff]
    intro hs
    obtain ⟨pre, post, h1, _⟩ := success_header g st evs buf buf_size hs
    rw [consumed_of_receives _ _ _ hev] at h1
    exact hno ⟨pre, post, h1.symm⟩

/-- The reference reply is captured after its header has been consumed; replies headed by
`+CCLK:`, `+QLT:` and `+QLTSX:` are not captured. -/
theorem read_response_success_needs_header_witness :
    (∃ s evs1 rest pre,
      read_response zeroGarbage 0 (deliver 0 (bytes "+QLTS: \"2023/10/07,23:07:16+08,1\"\n"))
          (bytes "QLTS") (List.replicate 256 0) 256 = .returned 26 s ∧
      deliver 0 (bytes "+QLTS: \"2023/10/07,23:07:16+08,1\"\n") = evs1 ++ rest ∧
      consumed zeroGarbage.input_char evs1
        = pre ++ bytes "+QLTS: " ++ s.buf.take (26 : Int).toNat ++ [10]) ∧
    (read_response zeroGarbage 0 (deliver 0 (bytes "+CCLK: \"23/10/07,23:07:16+08\"\n"))
        (bytes "QLTS") (List.replicate 256 0) 256).success = false ∧
    (read_response zeroGarbage 0 (deliver 0 (bytes "+QLT: \"2023/10/07,23:07:16+08,1\"\n"))
        (bytes "QLTS") (List.replicate 256 0) 256).success = false ∧
    (read_response zeroGarbage 0 (deliver 0 (bytes "+QLTSX: \"2023/10/07,23:07:16+08,1\"\n"))
        (bytes "QLTS") (List.replicate 256 0) 256).success = false := by
  refine ⟨?_, ?_, ?_, ?_⟩
  · have hstream : deliver 0 (bytes "+QLTS: \"2023/10/07,23:07:16+08,1\"\n") =
        deliver 0 ([] ++ bytes "+QLTS: " ++ bytes "\"2023/10/07,23:07:16+08,1\"" ++ [10]) ++ [] := by
      decide
    obtain ⟨s, hs, _⟩ := frame_scan zeroGarbage 0
      (deliver 0 ([] ++ bytes "+QLTS: " ++ bytes "\"2023/10/07,23:07:16+08,1\"" ++ [10])) []
      (List.replicate 256 0) 256 [] (bytes "\"2023/10/07,23:07:16+08,1\"") (by decide) (by decide)
      (by decide) (by rw [List.length_replicate]; decide) (delivers_deliver 0 _)
    rw [← hstream] at hs
    have hs' : read_response zeroGarbage 0
        (deliver 0 (bytes "+QLTS: \"2023/10/07,23:07:16+08,1\"\n"))
        (bytes "QLTS") (List.replicate 256 0) 256 = .returned 26 s := hs
    obtain ⟨evs1, rest, pre, h1, _, h3⟩ :=
      read_response_success_needs_header.1 zeroGarbage 0 _ _ 256 26 s hs' (by decide)
    exact ⟨s, evs1, rest, pre, hs', h1, h3⟩
  · exact read_response_success_needs_header.2 zeroGarbage 0 _ _ 256
      (bytes "+CCLK: \"23/10/07,23:07:16+08\"\n") (delivers_deliver 0 _).1 (by decide)
  · exact read_response_success_needs_header.2 zeroGarbage 0 _ _ 256
      (bytes "+QLT: \"2023/10/07,23:07:16+08,1\"\n") (delivers_deliver 0 _).1 (by decide)
  · exact read_response_success_needs_header.2 zeroGarbage 0 _ _ 256
      (bytes "+QLTSX: \"2023/10/07,23:07:16+08,1\"\n") (delivers_deliver 0 _).1 (by decide)

/-! ## Unfolding the orchestrator -/

theorem field_take (l : List Nat) (n offset len : Nat) (h : offset + len ≤ n) :
    field (l.take n) offset len = field l offset len := by
  simp only [field, List.drop_take, List.take_take]
  congr 1
  omega

theorem strlen_eq (mem : List Nat) : strlen mem = (cstr mem).length := rfl

/-- The result of `perform_timesync` once `read_response` has returned. -/
theorem perform_timesync_returned (g : Garbage) (st : Int) (evs : List Event) (r : Int)
    (s : Scan)
    (h : read_response g st evs (bytes "QLTS") ((List.range 256).map g.buf) 256
      = .returned r s) :
    perform_timesync g st evs =
      if r < 0 ∨ validate_response s.buf (strlen s.buf) ≠ 0 then
        { actions := [.write (bytes "ATE0\r\n"), .write (bytes "AT+QLTS=1\r\n"),
            .read_response (.returned r s)], ret := some (-1) }
      else
        { actions := [.write (bytes "ATE0\r\n"), .write (bytes "AT+QLTS=1\r\n"),
            .read_response (.returned r s),
            .set_date_and_time
              (parse_response s.buf ((List.range __DATE_TIME_FIELD_MAX).map g.fields)).1],
          ret := some 0 } := by
  have hp : (parse_response s.buf ((List.range __DATE_TIME_FIELD_MAX).map g.fields)).2 = 0 := rfl
  simp only [perform_timesync, h, write_command, hp]
  by_cases h1 : r < 0
  · simp [h1]
  · by_cases h2 : validate_response s.buf (strlen s.buf) = 0
    · simp [h1, h2]
    · simp [h1, h2]

/-- The result of `perform_timesync` while `read_response` has not returned. -/
theorem perform_timesync_pending (g : Garbage) (st : Int) (evs : List Event)
    (h : ∀ r s, read_response g st evs (bytes "QLTS") ((List.range 256).map g.buf) 256
      ≠ .returned r s) :
    perform_timesync g st evs =
      { actions := [.write (bytes "ATE0\r\n"), .write (bytes "AT+QLTS=1\r\n"),
          .read_response
            (read_response g st evs (bytes "QLTS") ((List.range 256).map g.buf) 256)],
        ret := none } := by
  cases ho : read_response g st evs (bytes "QLTS") ((List.range 256).map g.buf) 256 with
  | running s => simp only [perform_timesync, ho, write_command]; rfl
  | fault s => simp only [perform_timesync, ho, write_command]; rfl
  | returned r s => exact absurd ho (h r s)

/-! ## Timeout and overrun -/

/-- In `PREFIX` an accumulator fed more bytes than it has room for is overrun. -/
theorem feed_prefix_overflow (resp : List Nat) (w : List Nat) (s : Scan) (p : Nat)
    (hs : s.state = READ_STATE_PREFIX) (hp : s.prefix_ptr = some p) (hw : 58 ∉ w)
    (hle : p ≤ s.prefix_buf.length) (hover : s.prefix_buf.length < p + w.length) :
    (feed resp (.running s) w).faulted = true := by
  induction w generalizing s p with
  | nil => simp at hover; omega
  | cons b bs ih =>
    have hb : b ≠ 58 := fun h => hw (by simp [h])
    have hbs : 58 ∉ bs := fun h => hw (List.mem_cons_of_mem _ h)
    simp only [List.length_cons] at hover
    by_cases hlt : p < s.prefix_buf.length
    · have hd : dispatch resp { s with input_char := b } =
          .running { s with input_char := b, prefix_buf := s.prefix_buf.set p b,
                            prefix_ptr := some (p + 1) } := by
        simp [dispatch, hs, hp, hb, store_some _ _ _ hlt]
      simp only [feed, hd]
      exact ih _ (p + 1) hs rfl hbs (by simp; omega) (by simp; omega)
    · have hd : dispatch resp { s with input_char := b } = .fault { s with input_char := b } := by
        simp [dispatch, hs, hp, hb, store_none _ _ _ (Nat.not_lt.mp hlt)]
      simp only [feed, hd]
      rfl

/-- In `CONTENT` a buffer fed more bytes than it has room for is overrun. -/
theorem feed_content_overflow (resp : List Nat) (c : List Nat) (s : Scan)
    (hs : s.state = READ_STATE_CONTENT) (hc : 10 ∉ c)
    (hle : s.ptr ≤ s.buf.length) (hover : s.buf.length < s.ptr + c.length) :
    (feed resp (.running s) c).faulted = true := by
  induction c generalizing s with
  | nil => simp at hover; omega
  | cons b bs ih =>
    have hb : b ≠ 10 := fun h => hc (by simp [h])
    have hbs : 10 ∉ bs := fun h => hc (List.mem_cons_of_mem _ h)
    simp only [List.length_cons] at hover
    by_cases hlt : s.ptr < s.buf.length
    · have hd : dispatch resp { s with input_char := b } =
          .running { s with input_char := b, buf := s.buf.set s.ptr b, ptr := s.ptr + 1 } := by
        simp [dispatch, hs, hb, store_some _ _ _ hlt]
      simp only [feed, hd]
      exact ih _ hs hbs (by simp; omega) (by simp; omega)
    · have hd : dispatch resp { s with input_char := b } = .fault { s with input_char := b } := by
        simp [dispatch, hs, hb, store_none _ _ _ (Nat.not_lt.mp hlt)]
      simp only [feed, hd]
      rfl

/-- More than 32 bytes without `:` after a `+` overrun `prefix_buf`. -/
theorem prefix_overrun (g : Garbage) (st : Int) (evs : List Event) (buf : List Nat)
    (buf_size : Int) (resp w : List Nat) (hw : 58 ∉ w) (hlen : 32 < w.length)
    (hev : Delivers st evs ([43] ++ w)) :
    (read_response g st evs resp buf buf_size).faulted = true := by
  rw [read_response_of_delivers g st evs _ buf buf_size _ hev]
  have hplus : dispatch resp { read_response_init g buf with input_char := 43 } =
      .running { read_response_init g buf with
        input_char := 43, state := READ_STATE_PREFIX, prefix_ptr := some 0 } := by
    simp [dispatch, read_response_init]
  rw [List.singleton_append, feed, hplus]
  exact feed_prefix_overflow resp w _ 0 rfl rfl hw (Nat.zero_le _)
    (by simp [read_response_init]; omega)

/-- More content bytes than the buffer holds, with no `\n` among them, overrun `buf`. -/
theorem content_overrun (g : Garbage) (st : Int) (evs : List Event) (buf : List Nat)
    (buf_size : Int) (c : List Nat) (hc : 10 ∉ c) (hlen : buf.length < c.length)
    (hev : Delivers st evs (bytes "+QLTS: " ++ c)) :
    (read_response g st evs (bytes "QLTS") buf buf_size).faulted = true := by
  rw [read_response_of_delivers g st evs _ buf buf_size _ hev]
  obtain ⟨s2, k1, k2, k3, k4⟩ := feed_header (bytes "QLTS") (read_response_init g buf) rfl
    (by decide) (by decide) (by simp [read_response_init]; decide)
  rw [header_bytes, feed_append, k1]
  have hp : s2.ptr = 0 := by rw [k4]; rfl
  have hb : s2.buf = buf := by rw [k3]; rfl
  exact feed_content_overflow _ c s2 k2 hc (by rw [hp]; exact Nat.zero_le _)
    (by rw [hp, hb]; omega)

/-- Claim C5 at failing inputs: with the 32-byte accumulator and a 256-byte buffer, 33
bytes after a `+` and 257 content bytes after the header are stored outside the arrays
instead of making `read_response` fail, and `perform_timesync` is then left without a return
value. -/
theorem read_response_overruns_buffers :
    (read_response zeroGarbage 0 (deliver 0 ([43] ++ List.replicate 33 65)) (bytes "QLTS")
      (List.replicate 256 0) 256).faulted = true ∧
    (read_response zeroGarbage 0 (deliver 0 (bytes "+QLTS: " ++ List.replicate 257 65))
      (bytes "QLTS") (List.replicate 256 0) 256).faulted = true ∧
    (perform_timesync zeroGarbage 0 (deliver 0 (bytes "+QLTS: " ++ List.replicate 257 65))).ret
      = none := by
  have h65 : ∀ n, 10 ∉ List.replicate n 65 := by
    intro n h
    have := List.eq_of_mem_replicate h
    omega
  have h58 : ∀ n, 58 ∉ List.replicate n 65 := by
    intro n h
    have := List.eq_of_mem_replicate h
    omega
  refine ⟨?_, ?_, ?_⟩
  · exact prefix_overrun zeroGarbage 0 _ _ 256 _ (List.replicate 33 65) (h58 33)
      (by simp only [List.length_replicate]; omega)
      (delivers_deliver 0 _)
  · exact content_overrun zeroGarbage 0 _ _ 256 (List.replicate 257 65) (h65 257)
      (by simp only [List.length_replicate]; omega) (delivers_deliver 0 _)
  · have hf := content_overrun zeroGarbage 0
      (deliver 0 (bytes "+QLTS: " ++ List.replicate 257 65)) ((List.range 256).map zeroGarbage.buf)
      256 (List.replicate 257 65) (h65 257)
      (by simp only [List.length_map, List.length_range, List.length_replicate]; omega)
      (delivers_deliver 0 _)
    cases ho : read_response zeroGarbage 0 (deliver 0 (bytes "+QLTS: " ++ List.replicate 257 65))
        (bytes "QLTS") ((List.range 256).map zeroGarbage.buf) 256 with
    | running s => rw [ho] at hf; simp [Outcome.faulted] at hf
    | returned r s => rw [ho] at hf; simp [Outcome.faulted] at hf
    | fault s =>
      rw [perform_timesync_pending zeroGarbage 0 _ (by rw [ho]; simp)]

/-! ## The validator -/

theorem strlen_literal : strlen (bytes "\"2023/10/07,23:07:16+08,1\"") = 26 := by decide

theorem validate_response_26 (response : List Nat) : validate_response response 26 = 0 := by
  unfold validate_response to_size_t
  rw [strlen_literal]
  decide

/-- Claim C6, as stated, fails: a length of 25 is rejected and 26, the length of the
literal with its quotes, is the one accepted. -/
theorem validate_response_rejects_25 :
    (bytes "\"2023/10/07,23:07:16+08,1\"").length = 26 ∧
    validate_response (bytes "\"2023/10/07,23:07:16+08,\"") 25 ≠ 0 ∧
    validate_response (bytes "\"2023/10/07,23:07:16+08,1\"") 26 = 0 := by
  decide

/-- Claim C6, amended.  For every `int` length, `validate_response` returns 0 if and only
if the length is exactly 26, the length of the literal `"2023/10/07,23:07:16+08,1"` with
its quotes, and returns -1 for every other length, whatever the bytes of the frame. -/
theorem validate_response_iff_26 (response : List Nat) (response_len : Int)
    (hlo : -2 ^ 31 ≤ response_len) (hhi : response_len < 2 ^ 31) :
    (validate_response response response_len = 0 ↔ response_len = 26) ∧
    (response_len ≠ 26 → validate_response response response_len = -1) := by
  unfold validate_response to_size_t
  rw [strlen_literal]
  norm_num at hlo hhi ⊢
  constructor
  · constructor
    · intro h; omega
    · intro h; omega
  · intro h1 h2
    apply h1; omega

/-- The lengths 26, 25 and 27. -/
theorem validate_response_iff_26_witness :
    validate_response (bytes "\"2023/10/07,23:07:16+08,1\"") 26 = 0 ∧
    validate_response (bytes "\"2023/10/07,23:07:16+08,\"") 25 = -1 ∧
    validate_response (bytes "\"2023/10/07,23:07:16+08,1\" ") 27 = -1 :=
  ⟨(validate_response_iff_26 (bytes "\"2023/10/07,23:07:16+08,1\"") 26 (by decide)
      (by decide)).1.2 rfl,
   (validate_response_iff_26 (bytes "\"2023/10/07,23:07:16+08,\"") 25 (by decide)
      (by decide)).2 (by decide),
   (validate_response_iff_26 (bytes "\"2023/10/07,23:07:16+08,1\" ") 27 (by decide)
      (by decide)).2 (by decide)⟩

/-! ## The field extractor -/

theorem fieldbuf_eq (src : List Nat) (offset len : Nat) (h : offset + len ≤ src.length) :
    (List.range len).map (fun i => src.getD (offset + i) 0) = field src offset len := by
  apply List.ext_getElem
  · simp [field]; omega
  · intro i h1 h2
    simp only [List.length_map, List.length_range] at h1
    simp [field, List.getD_eq_getElem?_getD, List.getElem?_eq_getElem (show offset + i < src.length by omega)]

theorem cstr_append_zero (f : List Nat) : cstr (f ++ [0]) = cstr f := by
  induction f with
  | nil => simp [cstr, List.takeWhile]
  | cons x xs ih =>
    simp only [cstr, List.cons_append, List.takeWhile_cons] at ih ⊢
    split
    · rw [ih]
    · rfl

theorem cstr_of_digits (s : List Nat) (h : AllDigits s) : cstr s = s := by
  induction s with
  | nil => rfl
  | cons x xs ih =>
    have hx := h x (List.mem_cons_self _ _)
    have hxs : AllDigits xs := fun b hb => h b (List.mem_cons_of_mem _ hb)
    have hx0 : (x != 0) = true := by simp; omega
    simp only [cstr, List.takeWhile_cons, hx0, if_true] at ih ⊢
    rw [ih hxs]

theorem digit_run_digits (s : List Nat) (acc : Nat) (h : AllDigits s) :
    digit_run s acc = s.foldl (fun a b => 10 * a + (b - 48)) acc := by
  induction s generalizing acc with
  | nil => rfl
  | cons x xs ih =>
    have hx := h x (List.mem_cons_self _ _)
    have hxs : AllDigits xs := fun b hb => h b (List.mem_cons_of_mem _ hb)
    have hd : isdigit x = true := by simp [isdigit, hx.1, hx.2]
    simp only [digit_run, hd, if_true, List.foldl_cons]
    exact ih _ hxs

theorem foldl_digits_lt (s : List Nat) (acc : Nat) (h : AllDigits s) :
    s.foldl (fun a b => 10 * a + (b - 48)) acc < (acc + 1) * 10 ^ s.length := by
  induction s generalizing acc with
  | nil => simp
  | cons x xs ih =>
    have hx := h x (List.mem_cons_self _ _)
    have hxs : AllDigits xs := fun b hb => h b (List.mem_cons_of_mem _ hb)
    simp only [List.foldl_cons, List.length_cons]
    calc xs.foldl (fun a b => 10 * a + (b - 48)) (10 * acc + (x - 48))
        < (10 * acc + (x - 48) + 1) * 10 ^ xs.length := ih _ hxs
      _ ≤ ((acc + 1) * 10) * 10 ^ xs.length := Nat.mul_le_mul_right _ (by omega)
      _ = (acc + 1) * 10 ^ (xs.length + 1) := by rw [Nat.pow_succ, Nat.mul_assoc, Nat.mul_comm 10]

theorem decimal_value_lt (s : List Nat) (h : AllDigits s) : decimal_value s < 10 ^ s.length := by
  have := foldl_digits_lt s 0 h
  simpa [decimal_value] using this

theorem to_uint16_to_long (v : Nat) (h : v < 65536) : to_uint16 (to_long v) = v := by
  have h63 : v < 2 ^ 63 := by omega
  simp only [to_long, to_uint16, h63, if_true]
  omega

theorem strtoul_digits (s : List Nat) (h : AllDigits s) (hlen : s.length ≤ 4) :
    strtoul s = decimal_value s := by
  have hv := decimal_value_lt s h
  have hpow : 10 ^ s.length ≤ 10 ^ 4 := Nat.pow_le_pow_right (by decide) hlen
  have hrun := digit_run_digits s 0 h
  cases s with
  | nil => simp [strtoul, digit_run, decimal_value]
  | cons x xs =>
    have hx := h x (List.mem_cons_self _ _)
    have hsp : isspace x = false := by
      simp only [isspace, Bool.or_eq_false_iff, Bool.and_eq_false_iff, beq_eq_false_iff_ne,
        decide_eq_false_iff_not]
      omega
    have h45 : x ≠ 45 := by omega
    have h43 : x ≠ 43 := by omega
    have hdw : (x :: xs).dropWhile isspace = x :: xs := by
      simp [List.dropWhile_cons, hsp]
    have hle : ¬ decimal_value (x :: xs) > ULONG_MAX := by
      simp only [ULONG_MAX]; omega
    simp only [strtoul, hdw, List.head?_cons, Option.some.injEq, h45, h43, or_self, if_false,
      hrun]
    simp only [decimal_value] at hle ⊢
    rw [if_neg hle]

/-- A field made of decimal digits is extracted as its base-10 value. -/
theorem copy_and_parse_field_digits (src : List Nat) (offset len : Nat)
    (hin : offset + len ≤ src.length) (hlen : len ≤ 4) (hd : AllDigits (field src offset len)) :
    copy_and_parse_field src offset len = (decimal_value (field src offset len), -1) := by
  have hfl : (field src offset len).length ≤ 4 := by simp [field]; omega
  have hv := decimal_value_lt _ hd
  have hpow : 10 ^ (field src offset len).length ≤ 10 ^ 4 := Nat.pow_le_pow_right (by decide) hfl
  simp only [copy_and_parse_field, fieldbuf_eq src offset len hin, cstr_append_zero,
    cstr_of_digits _ hd, strtoul_digits _ hd hfl]
  rw [to_uint16_to_long _ (by omega)]

theorem set_six (output : List Nat) (h : output.length = 6) (a b c d e f : Nat) :
    (((((output.set 0 a).set 1 b).set 2 c).set 3 d).set 4 e).set 5 f = [a, b, c, d, e, f] := by
  match output, h with
  | [_, _, _, _, _, _], _ => rfl

theorem dropWhile_isspace_cstr (f : List Nat) :
    (cstr f).dropWhile isspace = cstr (f.dropWhile isspace) := by
  induction f with
  | nil => rfl
  | cons x xs ih =>
    by_cases hx : x = 0
    · subst hx
      have h1 : isspace 0 = false := by decide
      simp [cstr, List.takeWhile_cons, List.dropWhile_cons, h1]
    · have hx0 : (x != 0) = true := by simpa using hx
      cases hsp : isspace x with
      | true =>
        simp only [cstr, List.takeWhile_cons, hx0, if_true, List.dropWhile_cons, hsp] at ih ⊢
        exact ih
      | false =>
        simp [cstr, List.takeWhile_cons, hx0, List.dropWhile_cons, hsp]

theorem starts_number_cstr (f : List Nat) : starts_number (cstr f) = starts_number f := by
  unfold starts_number skip_space_sign
  rw [dropWhile_isspace_cstr]
  cases f.dropWhile isspace with
  | nil => rfl
  | cons x r =>
    by_cases h0 : x = 0
    · subst h0; simp [cstr, List.takeWhile_cons, isdigit]
    · have hx0 : (x != 0) = true := by simpa using h0
      by_cases h45 : x = 45
      · subst h45
        cases r with
        | nil => rfl
        | cons y ys =>
          by_cases hy : y = 0
          · subst hy; simp [cstr, List.takeWhile_cons, isdigit]
          · have hy0 : (y != 0) = true := by simpa using hy
            simp [cstr, List.takeWhile_cons, hy0]
      · by_cases h43 : x = 43
        · subst h43
          cases r with
          | nil => rfl
          | cons y ys =>
            by_cases hy : y = 0
            · subst hy; simp [cstr, List.takeWhile_cons, isdigit]
            · have hy0 : (y != 0) = true := by simpa using hy
              simp [cstr, List.takeWhile_cons, hy0]
        · simp only [cstr, List.takeWhile_cons, hx0, if_true]
          split <;> simp_all

theorem strtoul_no_number (s : List Nat) (h : starts_number s = false) : strtoul s = 0 := by
  unfold starts_number skip_space_sign at h
  unfold strtoul
  cases hdw : s.dropWhile isspace with
  | nil => simp [digit_run, ULONG_MAX]
  | cons x r =>
    rw [hdw] at h
    by_cases h45 : x = 45
    · subst h45
      have hr : digit_run r 0 = 0 := by
        cases r with
        | nil => rfl
        | cons y ys =>
          have hy : isdigit y = false := by simpa using h
          simp [digit_run, hy]
      simp [hr, ULONG_MAX]
    · by_cases h43 : x = 43
      · subst h43
        have hr : digit_run r 0 = 0 := by
          cases r with
          | nil => rfl
          | cons y ys =>
            have hy : isdigit y = false := by simpa using h
            simp [digit_run, hy]
        simp [hr, ULONG_MAX]
      · have hx : isdigit x = false := by
          split at h <;> simp_all
        simp [h45, h43, digit_run, hx, ULONG_MAX]

theorem to_uint16_to_long_zero : to_uint16 (to_long 0) = 0 := by decide

/-- A field that does not start a number is extracted as 0. -/
theorem copy_and_parse_field_no_number (src : List Nat) (offset len : Nat)
    (hin : offset + len ≤ src.length) (h : starts_number (field src offset len) = false) :
    (copy_and_parse_field src offset len).1 = 0 := by
  simp only [copy_and_parse_field, fieldbuf_eq src offset len hin, cstr_append_zero]
  rw [strtoul_no_number _ (by rw [starts_number_cstr]; exact h)]
  exact to_uint16_to_long_zero

/-- Claim C7.  When the six fixed-width substrings of the frame are made of ASCII decimal
digits, `parse_response` returns 0 and stores exactly their base-10 values in `output`, in
the order year, month, day, hour, minute, second; the year is at most 9999 and the others at
most 99, so nothing is truncated to 16 bits, and no value is range-checked or clamped. -/
theorem parse_response_digits (frame output : List Nat) (hout : output.length = 6)
    (hlen : 20 ≤ frame.length)
    (hy : AllDigits (field frame 1 4)) (hmo : AllDigits (field frame 6 2))
    (hd : AllDigits (field frame 9 2)) (hh : AllDigits (field frame 12 2))
    (hmi : AllDigits (field frame 15 2)) (hs : AllDigits (field frame 18 2)) :
    parse_response frame output =
      ([decimal_value (field frame 1 4), decimal_value (field frame 6 2),
        decimal_value (field frame 9 2), decimal_value (field frame 12 2),
        decimal_value (field frame 15 2), decimal_value (field frame 18 2)], 0) ∧
    decimal_value (field frame 1 4) ≤ 9999 ∧ decimal_value (field frame 6 2) ≤ 99 ∧
    decimal_value (field frame 9 2) ≤ 99 ∧ decimal_value (field frame 12 2) ≤ 99 ∧
    decimal_value (field frame 15 2) ≤ 99 ∧ decimal_value (field frame 18 2) ≤ 99 := by
  have bound : ∀ off len, off + len ≤ frame.length → AllDigits (field frame off len) →
      decimal_value (field frame off len) < 10 ^ len := by
    intro off len hin h
    have := decimal_value_lt _ h
    have hl : (field frame off len).length = len := by simp [field]; omega
    rwa [hl] at this
  have b1 := bound 1 4 (by omega) hy
  have b2 := bound 6 2 (by omega) hmo
  have b3 := bound 9 2 (by omega) hd
  have b4 := bound 12 2 (by omega) hh
  have b5 := bound 15 2 (by omega) hmi
  have b6 := bound 18 2 (by omega) hs
  refine ⟨?_, by omega, by omega, by omega, by omega, by omega, by omega⟩
  simp only [parse_response,
    copy_and_parse_field_digits frame 1 4 (by omega) (by decide) hy,
    copy_and_parse_field_digits frame 6 2 (by omega) (by decide) hmo,
    copy_and_parse_field_digits frame 9 2 (by omega) (by decide) hd,
    copy_and_parse_field_digits frame 12 2 (by omega) (by decide) hh,
    copy_and_parse_field_digits frame 15 2 (by omega) (by decide) hmi,
    copy_and_parse_field_digits frame 18 2 (by omega) (by decide) hs,
    DATE_TIME_FIELD_YEAR, DATE_TIME_FIELD_MONTH, DATE_TIME_FIELD_DAY, DATE_TIME_FIELD_HOUR,
    DATE_TIME_FIELD_MINUTE, DATE_TIME_FIELD_SECOND]
  rw [set_six output hout]

/-- The reference frame, and a frame with month 13 and hour 99. -/
theorem parse_response_digits_witness :
    parse_response (bytes "\"2023/10/07,23:07:16+08,1\"") [0, 0, 0, 0, 0, 0]
      = ([2023, 10, 7, 23, 7, 16], 0) ∧
    parse_response (bytes "\"2023/13/07,99:07:16+08,1\"") [0, 0, 0, 0, 0, 0]
      = ([2023, 13, 7, 99, 7, 16], 0) :=
  ⟨(parse_response_digits (bytes "\"2023/10/07,23:07:16+08,1\"") [0, 0, 0, 0, 0, 0] rfl
      (by decide) (by decide) (by decide) (by decide) (by decide) (by decide) (by decide)).1.trans
      (by decide),
   (parse_response_digits (bytes "\"2023/13/07,99:07:16+08,1\"") [0, 0, 0, 0, 0, 0] rfl
      (by decide) (by decide) (by decide) (by decide) (by decide) (by decide) (by decide)).1.trans
      (by decide)⟩

theorem parse_response_eq (frame output : List Nat) (hout : output.length = 6) :
    parse_response frame output =
      ([(copy_and_parse_field frame 1 4).1, (copy_and_parse_field frame 6 2).1,
        (copy_and_parse_field frame 9 2).1, (copy_and_parse_field frame 12 2).1,
        (copy_and_parse_field frame 15 2).1, (copy_and_parse_field frame 18 2).1], 0) := by
  simp only [parse_response, DATE_TIME_FIELD_YEAR, DATE_TIME_FIELD_MONTH, DATE_TIME_FIELD_DAY,
    DATE_TIME_FIELD_HOUR, DATE_TIME_FIELD_MINUTE, DATE_TIME_FIELD_SECOND]
  rw [set_six output hout]

/-- Claim C10, as stated, fails: the month substring `1x` is not a well-formed unsigned
decimal integer, yet the month is extracted as 1; likewise `-1` is extracted as 65535. -/
theorem parse_response_keeps_leading_digits :
    (bytes "\"2023/1x/07,23:07:16+08,1\"").length = 26 ∧
    ¬ AllDigits (field (bytes "\"2023/1x/07,23:07:16+08,1\"") 6 2) ∧
    parse_response (bytes "\"2023/1x/07,23:07:16+08,1\"") [0, 0, 0, 0, 0, 0]
      = ([2023, 1, 7, 23, 7, 16], 0) ∧
    (bytes "\"2023/-1/07,23:07:16+08,1\"").length = 26 ∧
    ¬ AllDigits (field (bytes "\"2023/-1/07,23:07:16+08,1\"") 6 2) ∧
    parse_response (bytes "\"2023/-1/07,23:07:16+08,1\"") [0, 0, 0, 0, 0, 0]
      = ([2023, 65535, 7, 23, 7, 16], 0) := by
  decide

theorem digit_run_leading (ds rest : List Nat) (acc : Nat) (h : AllDigits ds)
    (hrest : ∀ b, rest.head? = some b → isdigit b = false) :
    digit_run (ds ++ rest) acc = ds.foldl (fun a b => 10 * a + (b - 48)) acc := by
  induction ds generalizing acc with
  | nil =>
    cases rest with
    | nil => rfl
    | cons b bs =>
      have hb := hrest b rfl
      simp [digit_run, hb]
  | cons x xs ih =>
    have hx := h x (List.mem_cons_self _ _)
    have hxs : AllDigits xs := fun b hb => h b (List.mem_cons_of_mem _ hb)
    have hd : isdigit x = true := by simp [isdigit, hx.1, hx.2]
    simp only [List.cons_append, digit_run, hd, if_true, List.foldl_cons]
    exact ih _ hxs

theorem cstr_leading (ds rest : List Nat) (h : AllDigits ds) :
    cstr (ds ++ rest) = ds ++ cstr rest := by
  induction ds with
  | nil => rfl
  | cons x xs ih =>
    have hx := h x (List.mem_cons_self _ _)
    have hxs : AllDigits xs := fun b hb => h b (List.mem_cons_of_mem _ hb)
    have hx0 : (x != 0) = true := by simp; omega
    simp only [cstr, List.cons_append, List.takeWhile_cons, hx0, if_true] at ih ⊢
    rw [ih hxs]

theorem cstr_head_nondigit (rest : List Nat)
    (hrest : ∀ b, rest.head? = some b → isdigit b = false) :
    ∀ b, (cstr rest).head? = some b → isdigit b = false := by
  intro b hb
  cases rest with
  | nil => simp [cstr] at hb
  | cons x xs =>
    by_cases hx : x = 0
    · subst hx; simp [cstr, List.takeWhile_cons] at hb
    · have hx0 : (x != 0) = true := by simpa using hx
      simp only [cstr, List.takeWhile_cons, hx0, if_true, List.head?_cons,
        Option.some.injEq] at hb
      subst hb
      exact hrest x rfl

theorem strtoul_leading (ds rest : List Nat) (h : AllDigits ds) (hne : ds ≠ [])
    (hlen : ds.length ≤ 4) (hrest : ∀ b, rest.head? = some b → isdigit b = false) :
    strtoul (ds ++ rest) = decimal_value ds := by
  have hv := decimal_value_lt ds h
  have hpow : 10 ^ ds.length ≤ 10 ^ 4 := Nat.pow_le_pow_right (by decide) hlen
  have hrun := digit_run_leading ds rest 0 h hrest
  cases ds with
  | nil => exact absurd rfl hne
  | cons x xs =>
    have hx := h x (List.mem_cons_self _ _)
    have hsp : isspace x = false := by
      simp only [isspace, Bool.or_eq_false_iff, Bool.and_eq_false_iff, beq_eq_false_iff_ne,
        decide_eq_false_iff_not]
      omega
    have h45 : x ≠ 45 := by omega
    have h43 : x ≠ 43 := by omega
    have hrun2 : digit_run (x :: (xs ++ rest)) 0
        = List.foldl (fun a b => 10 * a + (b - 48)) 0 (x :: xs) := hrun
    have hdw : (x :: (xs ++ rest)).dropWhile isspace = x :: (xs ++ rest) := by
      simp [List.dropWhile_cons, hsp]
    have hle : ¬ decimal_value (x :: xs) > ULONG_MAX := by
      simp only [ULONG_MAX]; omega
    show strtoul (x :: (xs ++ rest)) = decimal_value (x :: xs)
    simp only [strtoul, hdw, List.head?_cons, Option.some.injEq, h45, h43, or_self, if_false,
      hrun2]
    simp only [decimal_value] at hle ⊢
    rw [if_neg hle]

/-- A field that starts with decimal digits is extracted as the value of those digits. -/
theorem copy_and_parse_field_leading (src : List Nat) (offset len : Nat)
    (hin : offset + len ≤ src.length) (hlen : len ≤ 4) (ds : List Nat)
    (h : LeadingDigits (field src offset len) ds) :
    (copy_and_parse_field src offset len).1 = decimal_value ds := by
  obtain ⟨hne, hd, rest, hsplit, hrest⟩ := h
  have hrest' : ∀ b, rest.head? = some b → isdigit b = false := by
    intro b hb
    have := hrest b hb
    simp only [isdigit, Bool.and_eq_false_iff, decide_eq_false_iff_not]
    omega
  have hfl : (field src offset len).length ≤ 4 := by simp [field]; omega
  have hdl : ds.length ≤ 4 := by
    rw [hsplit] at hfl
    simp only [List.length_append] at hfl
    omega
  have hv := decimal_value_lt _ hd
  have hpow : 10 ^ ds.length ≤ 10 ^ 4 := Nat.pow_le_pow_right (by decide) hdl
  simp only [copy_and_parse_field, fieldbuf_eq src offset len hin, cstr_append_zero, hsplit,
    cstr_leading ds rest hd,
    strtoul_leading ds (cstr rest) hd hne hdl (cstr_head_nondigit rest hrest')]
  rw [to_uint16_to_long _ (by omega)]

/-- Claim C10, amended.  For every frame of the validated length 26, `parse_response`
returns 0 and stores all six fields, whatever `output` held before; every field whose
substring does not start, after optional leading white space and one optional sign, with a
decimal digit is extracted as 0; and every field whose substring starts with decimal digits
is extracted as the value of that leading run of digits, whatever follows it. -/
theorem parse_response_never_fails (frame : List Nat) (hlen : frame.length = 26) :
    ∃ y mo d h mi s : Nat,
      (∀ output : List Nat, output.length = 6 →
        parse_response frame output = ([y, mo, d, h, mi, s], 0)) ∧
      ((starts_number (field frame 1 4) = false → y = 0) ∧
        (starts_number (field frame 6 2) = false → mo = 0) ∧
        (starts_number (field frame 9 2) = false → d = 0) ∧
        (starts_number (field frame 12 2) = false → h = 0) ∧
        (starts_number (field frame 15 2) = false → mi = 0) ∧
        (starts_number (field frame 18 2) = false → s = 0)) ∧
      ((∀ ds, LeadingDigits (field frame 1 4) ds → y = decimal_value ds) ∧
        (∀ ds, LeadingDigits (field frame 6 2) ds → mo = decimal_value ds) ∧
        (∀ ds, LeadingDigits (field frame 9 2) ds → d = decimal_value ds) ∧
        (∀ ds, LeadingDigits (field frame 12 2) ds → h = decimal_value ds) ∧
        (∀ ds, LeadingDigits (field frame 15 2) ds → mi = decimal_value ds) ∧
        (∀ ds, LeadingDigits (field frame 18 2) ds → s = decimal_value ds)) :=
  ⟨_, _, _, _, _, _, fun output hout => parse_response_eq frame output hout,
    ⟨copy_and_parse_field_no_number frame 1 4 (by omega),
      copy_and_parse_field_no_number frame 6 2 (by omega),
      copy_and_parse_field_no_number frame 9 2 (by omega),
      copy_and_parse_field_no_number frame 12 2 (by omega),
      copy_and_parse_field_no_number frame 15 2 (by omega),
      copy_and_parse_field_no_number frame 18 2 (by omega)⟩,
    ⟨copy_and_parse_field_leading frame 1 4 (by omega) (by decide),
      copy_and_parse_field_leading frame 6 2 (by omega) (by decide),
      copy_and_parse_field_leading frame 9 2 (by omega) (by decide),
      copy_and_parse_field_leading frame 12 2 (by omega) (by decide),
      copy_and_parse_field_leading frame 15 2 (by omega) (by decide),
      copy_and_parse_field_leading frame 18 2 (by omega) (by decide)⟩⟩

/-- The month substring `x1` does not start a number and is extracted as 0; the day
substring `7y` starts with the digit 7 and is extracted as 7. -/
theorem parse_response_never_fails_witness :
    ∃ y h mi s : Nat,
      parse_response (bytes "\"2023/x1/7y,23:07:16+08,1\"") [9, 9, 9, 9, 9, 9]
        = ([y, 0, 7, h, mi, s], 0) := by
  obtain ⟨y, mo, d, h, mi, s, hall, ⟨_, hmo, _⟩, ⟨_, _, hd, _⟩⟩ :=
    parse_response_never_fails (bytes "\"2023/x1/7y,23:07:16+08,1\"") (by decide)
  have h0 : mo = 0 := hmo (by decide)
  have h7 : d = 7 := by
    rw [hd [55] ⟨by decide, by decide, [121], by decide, by
      intro b hb
      simp only [List.head?_cons, Option.some.injEq] at hb
      subst hb
      decide⟩]
    decide
  subst h0
  subst h7
  exact ⟨y, h, mi, s, hall [9, 9, 9, 9, 9, 9] rfl⟩

/-! ## The orchestrator -/

/-- The scan, the validation and the extraction of the reference reply. -/
theorem reference_reply (g : Garbage) (st : Int) (evs more : List Event) (preamble : List Nat)
    (hpre : 43 ∉ preamble)
    (hev : Delivers st evs
      (preamble ++ bytes "+QLTS: " ++ bytes "\"2023/10/07,23:07:16+08,1\"" ++ [10])) :
    ∃ s, read_response g st (evs ++ more) (bytes "QLTS") ((List.range 256).map g.buf) 256
        = .returned 26 s ∧
      validate_response s.buf (strlen s.buf) = 0 ∧
      ∀ output : List Nat, output.length = 6 →
        parse_response s.buf output = ([2023, 10, 7, 23, 7, 16], 0) := by
  obtain ⟨s, h1, h2, h3, h4⟩ := frame_scan g st evs more
    ((List.range 256).map g.buf) 256 preamble (bytes "\"2023/10/07,23:07:16+08,1\"") hpre
    (by decide) (by decide) (by simp; decide) hev
  have hlen : (bytes "\"2023/10/07,23:07:16+08,1\"").length = 26 := by decide
  rw [hlen] at h2
  have hstr : strlen s.buf = 26 := by rw [strlen_eq, h3]; exact hlen
  have hval : validate_response s.buf (strlen s.buf) = 0 := by
    rw [hstr]; exact validate_response_26 s.buf
  have hbl : 20 ≤ s.buf.length := by rw [h4]; simp
  have hf : ∀ off len, off + len ≤ 26 →
      field s.buf off len = field (bytes "\"2023/10/07,23:07:16+08,1\"") off len := by
    intro off len h
    rw [← h2, field_take _ _ _ _ h]
  have hvals : [decimal_value (field (bytes "\"2023/10/07,23:07:16+08,1\"") 1 4),
      decimal_value (field (bytes "\"2023/10/07,23:07:16+08,1\"") 6 2),
      decimal_value (field (bytes "\"2023/10/07,23:07:16+08,1\"") 9 2),
      decimal_value (field (bytes "\"2023/10/07,23:07:16+08,1\"") 12 2),
      decimal_value (field (bytes "\"2023/10/07,23:07:16+08,1\"") 15 2),
      decimal_value (field (bytes "\"2023/10/07,23:07:16+08,1\"") 18 2)]
      = [2023, 10, 7, 23, 7, 16] := by decide
  refine ⟨s, h1, hval, ?_⟩
  intro output hout
  rw [parse_response_eq s.buf output hout,
    copy_and_parse_field_digits s.buf 1 4 (by omega) (by decide) (by rw [hf 1 4 (by decide)]; decide),
    copy_and_parse_field_digits s.buf 6 2 (by omega) (by decide) (by rw [hf 6 2 (by decide)]; decide),
    copy_and_parse_field_digits s.buf 9 2 (by omega) (by decide) (by rw [hf 9 2 (by decide)]; decide),
    copy_and_parse_field_digits s.buf 12 2 (by omega) (by decide)
      (by rw [hf 12 2 (by decide)]; decide),
    copy_and_parse_field_digits s.buf 15 2 (by omega) (by decide)
      (by rw [hf 15 2 (by decide)]; decide),
    copy_and_parse_field_digits s.buf 18 2 (by omega) (by decide)
      (by rw [hf 18 2 (by decide)]; decide),
    hf 1 4 (by decide), hf 6 2 (by decide), hf 9 2 (by decide), hf 12 2 (by decide),
    hf 15 2 (by decide), hf 18 2 (by decide)]
  exact congrArg (fun v => (v, (0 : Int))) hvals

/-- Claim C8.  When the serial stream answers with `+QLTS: "2023/10/07,23:07:16+08,1"\n`
(after any bytes other than `+`, before the deadline, and whatever follows),
`perform_timesync` hands `ATE0\r\n` and then `AT+QLTS=1\r\n` to `write`, then calls
`read_response`, which returns 26, then calls `set_date_and_time` exactly once, with the
fields (2023, 10, 7, 23, 7, 16), and returns 0. -/
theorem perform_timesync_end_to_end (g : Garbage) (start_time : Int)
    (evs more : List Event) (preamble : List Nat) (hpre : 43 ∉ preamble)
    (hev : Delivers start_time evs
      (preamble ++ bytes "+QLTS: " ++ bytes "\"2023/10/07,23:07:16+08,1\"" ++ [10])) :
    ∃ s, perform_timesync g start_time (evs ++ more) =
      { actions := [.write (bytes "ATE0\r\n"), .write (bytes "AT+QLTS=1\r\n"),
          .read_response (.returned 26 s), .set_date_and_time [2023, 10, 7, 23, 7, 16]],
        ret := some 0 } := by
  obtain ⟨s, h1, hval, hparse⟩ := reference_reply g start_time evs more preamble hpre hev
  refine ⟨s, ?_⟩
  rw [perform_timesync_returned g start_time (evs ++ more) 26 s h1,
    hparse _ (by simp [__DATE_TIME_FIELD_MAX])]
  simp [hval]

/-- The reference reply between two `\r\nOK\r\n`, every byte arriving at the second read. -/
theorem perform_timesync_end_to_end_witness :
    ∃ s, perform_timesync zeroGarbage 0
        (deliver_polling 0 (bytes "\r\nOK\r\n" ++ bytes "+QLTS: " ++
          bytes "\"2023/10/07,23:07:16+08,1\"" ++ [10]) ++ deliver 0 (bytes "\r\nOK\r\n")) =
      { actions := [.write (bytes "ATE0\r\n"), .write (bytes "AT+QLTS=1\r\n"),
          .read_response (.returned 26 s), .set_date_and_time [2023, 10, 7, 23, 7, 16]],
        ret := some 0 } :=
  perform_timesync_end_to_end zeroGarbage 0 _ (deliver 0 (bytes "\r\nOK\r\n"))
    (bytes "\r\nOK\r\n") (by decide) (delivers_deliver_polling 0 _)

/-- Claim C9.  When `read_response` returns a negative value, or returns a frame that
`validate_response` rejects, `perform_timesync` returns -1 and never calls
`set_date_and_time`; conversely, whenever `set_date_and_time` is called, `read_response` has
returned a non-negative value, `validate_response` has accepted the frame, the call is the only
one, and its argument is the array of six fields that `parse_response` has written, none of
them left over from before. -/
theorem perform_timesync_guards_clock (g : Garbage) (start_time : Int) (evs : List Event) :
    (∀ r s, read_response g start_time evs (bytes "QLTS") ((List.range 256).map g.buf) 256
        = .returned r s →
      r < 0 ∨ validate_response s.buf (strlen s.buf) ≠ 0 →
      (perform_timesync g start_time evs).ret = some (-1) ∧
      clock_sets (perform_timesync g start_time evs).actions = []) ∧
    (clock_sets (perform_timesync g start_time evs).actions ≠ [] →
      ∃ r s, read_response g start_time evs (bytes "QLTS") ((List.range 256).map g.buf) 256
          = .returned r s ∧
        0 ≤ r ∧ validate_response s.buf (strlen s.buf) = 0 ∧
        (perform_timesync g start_time evs).ret = some 0 ∧
        ∃ y mo d h mi sec : Nat,
          clock_sets (perform_timesync g start_time evs).actions = [[y, mo, d, h, mi, sec]] ∧
          ∀ output : List Nat, output.length = 6 →
            parse_response s.buf output = ([y, mo, d, h, mi, sec], 0)) := by
  constructor
  · intro r s h hfail
    rw [perform_timesync_returned g start_time evs r s h, if_pos hfail]
    exact ⟨rfl, rfl⟩
  · intro hne
    cases ho : read_response g start_time evs (bytes "QLTS") ((List.range 256).map g.buf) 256 with
    | running s =>
      exfalso; apply hne
      rw [perform_timesync_pending g start_time evs (by rw [ho]; simp)]
      rfl
    | fault s =>
      exfalso; apply hne
      rw [perform_timesync_pending g start_time evs (by rw [ho]; simp)]
      rfl
    | returned r s =>
      rw [perform_timesync_returned g start_time evs r s ho] at hne ⊢
      by_cases hfail : r < 0 ∨ validate_response s.buf (strlen s.buf) ≠ 0
      · rw [if_pos hfail] at hne
        exact absurd rfl hne
      · rw [if_neg hfail]
        have h1 : 0 ≤ r := by
          by_contra hc; exact hfail (Or.inl (by omega))
        have h2 : validate_response s.buf (strlen s.buf) = 0 := by
          by_contra hc; exact hfail (Or.inr hc)
        refine ⟨r, s, rfl, h1, h2, rfl, _, _, _, _, _, _, ?_,
          fun output hout => parse_response_eq s.buf output hout⟩
        rw [parse_response_eq s.buf _ (by simp [__DATE_TIME_FIELD_MAX])]
        rfl

/-- A timeout at the first iteration, and the reference reply. -/
theorem perform_timesync_guards_clock_witness :
    ((perform_timesync zeroGarbage 0 [{ clock := 11, read := .error }]).ret = some (-1) ∧
      clock_sets (perform_timesync zeroGarbage 0 [{ clock := 11, read := .error }]).actions = []) ∧
    (∃ r s, read_response zeroGarbage 0
          (deliver 0 ([] ++ bytes "+QLTS: " ++ bytes "\"2023/10/07,23:07:16+08,1\"" ++ [10]) ++ [])
          (bytes "QLTS") ((List.range 256).map zeroGarbage.buf) 256 = .returned r s ∧
        0 ≤ r ∧ validate_response s.buf (strlen s.buf) = 0 ∧
        (perform_timesync zeroGarbage 0
          (deliver 0 ([] ++ bytes "+QLTS: " ++ bytes "\"2023/10/07,23:07:16+08,1\"" ++ [10])
            ++ [])).ret = some 0 ∧
        ∃ y mo d h mi sec : Nat,
          clock_sets (perform_timesync zeroGarbage 0
            (deliver 0 ([] ++ bytes "+QLTS: " ++ bytes "\"2023/10/07,23:07:16+08,1\"" ++ [10])
              ++ [])).actions = [[y, mo, d, h, mi, sec]] ∧
          ∀ output : List Nat, output.length = 6 →
            parse_response s.buf output = ([y, mo, d, h, mi, sec], 0)) :=
  ⟨(perform_timesync_guards_clock zeroGarbage 0 [{ clock := 11, read := .error }]).1 (-1)
      (read_response_init zeroGarbage ((List.range 256).map zeroGarbage.buf)) rfl
      (Or.inl (by decide)),
   (perform_timesync_guards_clock zeroGarbage 0
      (deliver 0 ([] ++ bytes "+QLTS: " ++ bytes "\"2023/10/07,23:07:16+08,1\"" ++ [10]) ++ [])).2
      (by
        obtain ⟨s, h1, hval, hparse⟩ := reference_reply zeroGarbage 0
          (deliver 0 ([] ++ bytes "+QLTS: " ++ bytes "\"2023/10/07,23:07:16+08,1\"" ++ [10])) []
          [] (by decide) (delivers_deliver 0 _)
        rw [perform_timesync_returned zeroGarbage 0 _ 26 s h1,
          hparse _ (by simp [__DATE_TIME_FIELD_MAX])]
        simp [hval, clock_sets])⟩


/-! ## Length-only validation -/

/-- Claim C11.  `validate_response` never looks at the payload: two payloads passed with
the same length get the same verdict, and payloads of the accepted length 26 with another
punctuation layout or with letters in place of the digits are accepted. -/
theorem validate_response_length_only :
    (∀ (p q : List Nat) (response_len : Int),
      validate_response p response_len = validate_response q response_len) ∧
    (bytes "<2023-10-07T23.07.16 +08>1").length = 26 ∧
    validate_response (bytes "<2023-10-07T23.07.16 +08>1") 26 = 0 ∧
    (bytes "\"YYYY/MM/DD,hh:mm:ss+ZZ,F\"").length = 26 ∧
    validate_response (bytes "\"YYYY/MM/DD,hh:mm:ss+ZZ,F\"") 26 = 0 :=
  ⟨fun _ _ _ => rfl, by decide, validate_response_26 _, by decide, validate_response_26 _⟩

/-! ## The timeout policy -/

/-- Claim C12.  The budget is 10 seconds.  An iteration whose clock reading exceeds the
reading at the start of the scan by more than the budget returns -1 in every scanner state,
with the state untouched and whatever the read would have delivered; an iteration within the
budget never returns a negative value; so a scan that is still running after any events
returns -1 at the first iteration past the deadline. -/
theorem read_response_timeout_policy :
    RESPONSE_TIMEOUT = 10 ∧
    (∀ (start_time : Int) (response : List Nat) (s : Scan) (e : Event),
      e.clock - start_time > RESPONSE_TIMEOUT →
      iteration start_time response s e = .returned (-1) s) ∧
    (∀ (start_time : Int) (response : List Nat) (s : Scan) (e : Event) (r : Int) (s' : Scan),
      e.clock - start_time ≤ RESPONSE_TIMEOUT →
      iteration start_time response s e = .returned r s' → 0 ≤ r) ∧
    (∀ (g : Garbage) (start_time : Int) (evs : List Event) (response buf : List Nat)
        (buf_size : Int) (s : Scan) (e : Event),
      read_response g start_time evs response buf buf_size = .running s →
      e.clock - start_time > RESPONSE_TIMEOUT →
      read_response g start_time (evs ++ [e]) response buf buf_size = .returned (-1) s) := by
  refine ⟨rfl, ?_, ?_, ?_⟩
  · intro st resp s e he
    simp [iteration, he]
  · intro st resp s e r s' he hit
    rcases iteration_cases st resp s e (by omega) with ⟨h1, _⟩ | ⟨b, h1, _⟩
    · rw [h1] at hit; simp at hit
    · rw [h1] at hit
      rw [dispatch_returned resp _ r s' hit]
      exact Int.ofNat_nonneg _
  · intro g st evs resp buf n s e hrun he
    unfold read_response at hrun ⊢
    rw [run_append, hrun]
    simp [run, iteration, he]

/-- In `CONTENT` with three bytes captured, a clock reading of 11 after a start at 0 gives
-1 although a byte is waiting, also at the end of a run; at a reading of 10 a `\n` ends the
frame with the return value 3. -/
theorem read_response_timeout_policy_witness :
    iteration 0 (bytes "QLTS")
      { state := READ_STATE_CONTENT, prefix_buf := List.replicate 32 0, prefix_ptr := some 5,
        input_char := 50, buf := [34, 50, 48, 0, 0, 0, 0, 0], ptr := 3 }
      { clock := 11, read := .data 50 }
      = .returned (-1)
        { state := READ_STATE_CONTENT, prefix_buf := List.replicate 32 0, prefix_ptr := some 5,
          input_char := 50, buf := [34, 50, 48, 0, 0, 0, 0, 0], ptr := 3 } ∧
    (0 : Int) ≤ 3 ∧
    read_response zeroGarbage 0 (deliver 0 (bytes "+QLTS: \"20") ++ [{ clock := 11, read := .data 50 }])
        (bytes "QLTS") (List.replicate 8 0) 8
      = .returned (-1)
        { state := READ_STATE_CONTENT,
          prefix_buf := [81, 76, 84, 83, 58] ++ List.replicate 27 0, prefix_ptr := some 5,
          input_char := 48, buf := [34, 50, 48, 0, 0, 0, 0, 0], ptr := 3 } :=
  ⟨read_response_timeout_policy.2.1 0 _ _ _ (by decide),
   read_response_timeout_policy.2.2.1 0 (bytes "QLTS")
      { state := READ_STATE_CONTENT, prefix_buf := List.replicate 32 0, prefix_ptr := some 5,
        input_char := 50, buf := [34, 50, 48, 0, 0, 0, 0, 0], ptr := 3 }
      { clock := 10, read := .data 10 } 3
      { state := READ_STATE_CONTENT, prefix_buf := List.replicate 32 0, prefix_ptr := some 5,
        input_char := 10, buf := [34, 50, 48, 0, 0, 0, 0, 0], ptr := 3 }
      (by decide) (by decide),
   read_response_timeout_policy.2.2.2 zeroGarbage 0 (deliver 0 (bytes "+QLTS: \"20"))
      (bytes "QLTS") (List.replicate 8 0) 8 _ { clock := 11, read := .data 50 } (by decide)
      (by decide)⟩

/-! ## Reads without data -/

theorem inDeadline_drop_no_data (st : Int) (evs : List Event) (h : InDeadline st evs) :
    InDeadline st (drop_no_data evs) := by
  induction evs with
  | nil => exact h
  | cons e es ih =>
    have hes : InDeadline st es := fun x hx => h x (List.mem_cons_of_mem _ hx)
    have he := h e (List.mem_cons_self _ _)
    rcases e with ⟨t, r⟩
    cases r with
    | error => simp only [drop_no_data]; exact ih hes
    | eof =>
      simp only [drop_no_data]
      intro x hx
      rcases List.mem_cons.1 hx with rfl | hx
      · exact he
      · exact ih hes x hx
    | data b =>
      simp only [drop_no_data]
      intro x hx
      rcases List.mem_cons.1 hx with rfl | hx
      · exact he
      · exact ih hes x hx

theorem consumed_drop_no_data (c : Nat) (evs : List Event) :
    consumed c (drop_no_data evs) = consumed c evs := by
  induction evs generalizing c with
  | nil => rfl
  | cons e es ih =>
    rcases e with ⟨t, r⟩
    cases r with
    | error => simp only [drop_no_data, consumed]; exact ih c
    | eof => simp only [drop_no_data, consumed]; rw [ih c]
    | data b => simp only [drop_no_data, consumed]; rw [ih b]

/-- Claim C13.  Within the deadline a read that reports no data leaves every variable of
the scan unchanged and the loop running; hence, absent a timeout, the outcome of
`read_response` is the same with and without the reads that report no data, however many
of them lie between the bytes. -/
theorem no_data_read_changes_nothing :
    (∀ (start_time : Int) (response : List Nat) (s : Scan) (t : Int),
      t - start_time ≤ RESPONSE_TIMEOUT →
      iteration start_time response s { clock := t, read := .error } = .running s) ∧
    (∀ (g : Garbage) (start_time : Int) (evs : List Event) (response buf : List Nat)
        (buf_size : Int),
      InDeadline start_time evs →
      read_response g start_time evs response buf buf_size
        = read_response g start_time (drop_no_data evs) response buf buf_size) := by
  constructor
  · intro st resp s t ht
    have h : ¬ (t - st > RESPONSE_TIMEOUT) := by omega
    simp only [iteration, h, if_false]
  · intro g st evs resp buf n hd
    unfold read_response
    rw [run_eq_feed _ _ _ _ hd, run_eq_feed _ _ _ _ (inDeadline_drop_no_data st evs hd),
      consumed_drop_no_data]

/-- A read without data in `PREFIX`, and the reference reply with every byte arriving only
at the second read. -/
theorem no_data_read_changes_nothing_witness :
    iteration 0 (bytes "QLTS")
      { state := READ_STATE_PREFIX, prefix_buf := [81, 76] ++ List.replicate 30 0,
        prefix_ptr := some 2, input_char := 76, buf := List.replicate 8 0, ptr := 0 }
      { clock := 3, read := .error }
      = .running
        { state := READ_STATE_PREFIX, prefix_buf := [81, 76] ++ List.replicate 30 0,
          prefix_ptr := some 2, input_char := 76, buf := List.replicate 8 0, ptr := 0 } ∧
    read_response zeroGarbage 0
        (deliver_polling 0 (bytes "+QLTS: \"2023/10/07,23:07:16+08,1\"\n"))
        (bytes "QLTS") (List.replicate 64 0) 64
      = read_response zeroGarbage 0
        (drop_no_data (deliver_polling 0 (bytes "+QLTS: \"2023/10/07,23:07:16+08,1\"\n")))
        (bytes "QLTS") (List.replicate 64 0) 64 ∧
    drop_no_data (deliver_polling 0 (bytes "+QLTS: \"2023/10/07,23:07:16+08,1\"\n"))
      = deliver 0 (bytes "+QLTS: \"2023/10/07,23:07:16+08,1\"\n") :=
  ⟨no_data_read_changes_nothing.1 0 _ _ 3 (by decide),
   no_data_read_changes_nothing.2 zeroGarbage 0 _ _ _ 64 (delivers_deliver_polling 0 _).2,
   by decide⟩

/-! ## The separator state -/

/-- From `IDLE`, the bytes `+`, the expected prefix and `:` lead to `SEP_SPACE`. -/
theorem feed_header_colon (resp : List Nat) (s : Scan) (hs : s.state = READ_STATE_IDLE)
    (h0 : 0 ∉ resp) (h58 : 58 ∉ resp) (hroom : resp.length < s.prefix_buf.length) :
    ∃ s', feed resp (.running s) ([43] ++ resp ++ [58]) = .running s' ∧
      s'.state = READ_STATE_SEP_SPACE ∧ s'.buf = s.buf ∧ s'.ptr = s.ptr := by
  have hplus : dispatch resp { s with input_char := 43 } =
      .running { s with input_char := 43, state := READ_STATE_PREFIX, prefix_ptr := some 0 } := by
    simp [dispatch, hs]
  obtain ⟨s1, h1, h2, h3, h4, h5, h6, h7⟩ :=
    feed_prefix resp resp
      { s with input_char := 43, state := READ_STATE_PREFIX, prefix_ptr := some 0 } 0 rfl rfl h58
      (by simp; omega)
  simp only [Nat.zero_add, List.take_zero, List.nil_append] at h3 h4
  have hcmp : strncmp_eq s1.prefix_buf resp resp.length = true := (strncmp_eq_iff _ _ h0).2 h4
  have hlt : resp.length < s1.prefix_buf.length := by rw [h5]; simpa using hroom
  have hcolon : dispatch resp { s1 with input_char := 58 } =
      .running { s1 with input_char := 58, state := READ_STATE_SEP_SPACE,
                         prefix_buf := s1.prefix_buf.set resp.length 58,
                         prefix_ptr := some (resp.length + 1) } := by
    simp [dispatch, h2, h3, hcmp, store_some _ _ _ hlt]
  refine ⟨{ s1 with input_char := 58, state := READ_STATE_SEP_SPACE,
                    prefix_buf := s1.prefix_buf.set resp.length 58,
                    prefix_ptr := some (resp.length + 1) }, ?_, rfl, h6, h7⟩
  rw [List.append_assoc, List.singleton_append, feed, hplus, feed_append, h1]
  simp only [feed, hcolon]

/-- Claim C14.  In `SEP_SPACE` a space leads to `CONTENT` and every other byte, `+`
included, leads to `IDLE`, nothing else changing; the stream `+QLTS:+QLTS: x\n` leaves the
scanner in `IDLE` with nothing captured, whatever the initial garbage and the timing. -/
theorem sep_space_requires_space :
    (∀ (response : List Nat) (s : Scan) (b : Nat), s.state = READ_STATE_SEP_SPACE →
      dispatch response { s with input_char := b } =
        .running { s with
          input_char := b,
          state := if b = 32 then READ_STATE_CONTENT else READ_STATE_IDLE }) ∧
    (∀ (g : Garbage) (start_time : Int) (evs : List Event) (buf : List Nat) (buf_size : Int),
      Delivers start_time evs (bytes "+QLTS:+QLTS: x\n") →
      ∃ s, read_response g start_time evs (bytes "QLTS") buf buf_size = .running s ∧
        s.state = READ_STATE_IDLE ∧ s.ptr = 0 ∧ s.buf = buf) := by
  constructor
  · intro resp s b hs
    by_cases hb : b = 32
    · simp [dispatch, hs, hb]
    · simp [dispatch, hs, hb]
  · intro g st evs buf n hev
    rw [read_response_of_delivers g st evs _ buf n _ hev]
    have hsplit : bytes "+QLTS:+QLTS: x\n" =
        ([43] ++ bytes "QLTS" ++ [58]) ++ ([43] ++ bytes "QLTS: x\n") := by decide
    obtain ⟨s1, h1, h2, h3, h4⟩ := feed_header_colon (bytes "QLTS") (read_response_init g buf) rfl
      (by decide) (by decide) (by simp [read_response_init]; decide)
    have hplus : dispatch (bytes "QLTS") { s1 with input_char := 43 } =
        .running { s1 with input_char := 43, state := READ_STATE_IDLE } := by
      simp [dispatch, h2]
    obtain ⟨s2, k1, k2, _, k4, k5⟩ := feed_idle (bytes "QLTS")
      { s1 with input_char := 43, state := READ_STATE_IDLE } (bytes "QLTS: x\n") rfl (by decide)
    refine ⟨s2, ?_, k2, by rw [k5]; exact h4, by rw [k4]; exact h3⟩
    rw [hsplit, feed_append, h1, List.singleton_append, feed, hplus]
    exact k1

/-- After a matched `+QLTS:` the bytes `+` and `x` lead to `IDLE` and a space to `CONTENT`;
the stream `+QLTS:+QLTS: x\n` is not captured. -/
theorem sep_space_requires_space_witness :
    dispatch (bytes "QLTS")
      { state := READ_STATE_SEP_SPACE, prefix_buf := [81, 76, 84, 83, 58] ++ List.replicate 27 0,
        prefix_ptr := some 5, input_char := 43, buf := List.replicate 8 0, ptr := 0 }
      = .running
        { state := READ_STATE_IDLE, prefix_buf := [81, 76, 84, 83, 58] ++ List.replicate 27 0,
          prefix_ptr := some 5, input_char := 43, buf := List.replicate 8 0, ptr := 0 } ∧
    (∃ s, read_response zeroGarbage 0 (deliver 0 (bytes "+QLTS:+QLTS: x\n")) (bytes "QLTS")
        (List.replicate 64 0) 64 = .running s ∧
      s.state = READ_STATE_IDLE ∧ s.ptr = 0 ∧ s.buf = List.replicate 64 0) :=
  ⟨sep_space_requires_space.1 (bytes "QLTS")
      { state := READ_STATE_SEP_SPACE, prefix_buf := [81, 76, 84, 83, 58] ++ List.replicate 27 0,
        prefix_ptr := some 5, input_char := 58, buf := List.replicate 8 0, ptr := 0 } 43 rfl,
   sep_space_requires_space.2 zeroGarbage 0 _ (List.replicate 64 0) 64 (delivers_deliver 0 _)⟩

/-! ## Read errors -/

theorem run_errors (st : Int) (resp : List Nat) (s : Scan) (evs : List Event)
    (herr : ∀ e ∈ evs, e.read = ReadResult.error) (hd : InDeadline st evs) :
    run st resp (.running s) evs = .running s := by
  induction evs with
  | nil => rfl
  | cons e es ih =>
    have he := herr e (List.mem_cons_self _ _)
    have ht : ¬ (e.clock - st > RESPONSE_TIMEOUT) := by
      have := hd e (List.mem_cons_self _ _); omega
    have hit : iteration st resp s e = .running s := by
      simp only [iteration, ht, if_false, he]
    rw [run, hit]
    exact ih (fun x hx => herr x (List.mem_cons_of_mem _ hx))
      (fun x hx => hd x (List.mem_cons_of_mem _ hx))

/-- Claim C15, as stated, fails: after a read error `read_response` has not failed; it is
still running with nothing changed, reads again and consumes the byte that follows. -/
theorem read_error_is_retried :
    read_response zeroGarbage 0 [{ clock := 0, read := .error }] (bytes "QLTS")
        (List.replicate 8 0) 8
      = .running (read_response_init zeroGarbage (List.replicate 8 0)) ∧
    (read_response zeroGarbage 0 [{ clock := 0, read := .error }, { clock := 0, read := .data 43 }]
        (bytes "QLTS") (List.replicate 8 0) 8).scan.state = READ_STATE_PREFIX := by
  decide

/-- Claim C15, amended.  `read_response` does not tell a fatal read error from a read
without data: while every read fails, the scan keeps running unchanged and reads again at
each iteration; at the first iteration past the deadline it returns -1, the Timeout result,
and `perform_timesync` then returns -1 without calling `set_date_and_time`. -/
theorem read_error_ends_in_timeout (g : Garbage) (start_time : Int) (evs : List Event)
    (herr : ∀ e ∈ evs, e.read = ReadResult.error) (hd : InDeadline start_time evs) :
    (∀ (response buf : List Nat) (buf_size : Int),
      read_response g start_time evs response buf buf_size
        = .running (read_response_init g buf)) ∧
    (∀ e : Event, e.clock - start_time > RESPONSE_TIMEOUT →
      (∀ (response buf : List Nat) (buf_size : Int),
        read_response g start_time (evs ++ [e]) response buf buf_size
          = .returned (-1) (read_response_init g buf)) ∧
      (perform_timesync g start_time (evs ++ [e])).ret = some (-1) ∧
      clock_sets (perform_timesync g start_time (evs ++ [e])).actions = []) := by
  have hrun : ∀ (response buf : List Nat) (buf_size : Int),
      read_response g start_time evs response buf buf_size
        = .running (read_response_init g buf) := by
    intro resp buf n
    unfold read_response
    exact run_errors start_time resp _ evs herr hd
  refine ⟨hrun, ?_⟩
  intro e he
  have hto : ∀ (response buf : List Nat) (buf_size : Int),
      read_response g start_time (evs ++ [e]) response buf buf_size
        = .returned (-1) (read_response_init g buf) := by
    intro resp buf n
    have h := hrun resp buf n
    unfold read_response at h ⊢
    rw [run_append, h]
    simp [run, iteration, he]
  refine ⟨hto, ?_⟩
  rw [perform_timesync_returned g start_time (evs ++ [e]) (-1) _ (hto _ _ 256),
    if_pos (Or.inl (by decide))]
  exact ⟨rfl, rfl⟩

/-- Three failed reads within the deadline and one iteration at clock reading 11. -/
theorem read_error_ends_in_timeout_witness :
    (perform_timesync zeroGarbage 0
      ([{ clock := 0, read := .error }, { clock := 5, read := .error },
        { clock := 10, read := .error }] ++ [{ clock := 11, read := .error }])).ret = some (-1) ∧
    clock_sets (perform_timesync zeroGarbage 0
      ([{ clock := 0, read := .error }, { clock := 5, read := .error },
        { clock := 10, read := .error }] ++ [{ clock := 11, read := .error }])).actions = [] :=
  ((read_error_ends_in_timeout zeroGarbage 0
      [{ clock := 0, read := .error }, { clock := 5, read := .error },
        { clock := 10, read := .error }] (by decide) (by decide)).2
    { clock := 11, read := .error } (by decide)).2

/-! ## Carriage return -/

theorem validate_response_27 (response : List Nat) : validate_response response 27 ≠ 0 := by
  unfold validate_response to_size_t
  rw [strlen_literal]
  decide

/-- Claim C16.  For every content `c` free of `\n` that leaves room in the buffer
for the `\r` and the terminating NUL, the stream `+QLTS: c\r\n` makes `read_response` return
`|c| + 1` with `c` followed by `\r` in the buffer; and `perform_timesync` answered by the
reply `+QLTS: "2023/10/07,23:07:16+08,1"\r\n` gets a frame of length 27, which
`validate_response` rejects, returns -1 and does not call `set_date_and_time`. -/
theorem carriage_return_is_content :
    (∀ (g : Garbage) (start_time : Int) (evs : List Event) (buf : List Nat) (buf_size : Int)
        (c : List Nat),
      10 ∉ c → c.length + 1 < buf.length →
      Delivers start_time evs (bytes "+QLTS: " ++ c ++ [13, 10]) →
      ∃ s, read_response g start_time evs (bytes "QLTS") buf buf_size
          = .returned ((c.length + 1 : Nat) : Int) s ∧
        s.buf.take (c.length + 1) = c ++ [13] ∧ s.buf.getD (c.length + 1) 1 = 0) ∧
    (∀ (g : Garbage) (start_time : Int) (evs more : List Event) (preamble : List Nat),
      43 ∉ preamble →
      Delivers start_time evs
        (preamble ++ bytes "+QLTS: " ++ bytes "\"2023/10/07,23:07:16+08,1\"" ++ [13, 10]) →
      ∃ s, validate_response s.buf (strlen s.buf) ≠ 0 ∧
        perform_timesync g start_time (evs ++ more) =
          { actions := [.write (bytes "ATE0\r\n"), .write (bytes "AT+QLTS=1\r\n"),
              .read_response (.returned 27 s)],
            ret := some (-1) }) := by
  constructor
  · intro g st evs buf n c hc hlen hev
    have hc' : 10 ∉ c ++ [13] := by
      simp only [List.mem_append, List.mem_singleton, not_or]
      exact ⟨hc, by decide⟩
    have hstream : bytes "+QLTS: " ++ c ++ [13, 10] = bytes "+QLTS: " ++ (c ++ [13]) ++ [10] := by
      simp
    rw [read_response_of_delivers g st evs _ buf n _ hev, hstream]
    obtain ⟨s, h1, h2, h3, _⟩ := feed_frame (read_response_init g buf) (c ++ [13]) rfl rfl
      (by simp [read_response_init]) hc' (by simpa [read_response_init] using hlen)
    simp only [List.length_append, List.length_singleton] at h1 h2 h3
    exact ⟨s, h1, h2, h3⟩
  · intro g st evs more preamble hpre hev
    have hstream : preamble ++ bytes "+QLTS: " ++ bytes "\"2023/10/07,23:07:16+08,1\"" ++ [13, 10]
        = preamble ++ bytes "+QLTS: " ++ (bytes "\"2023/10/07,23:07:16+08,1\"" ++ [13]) ++ [10] := by
      simp
    rw [hstream] at hev
    obtain ⟨s, h1, _, h3, _⟩ := frame_scan g st evs more ((List.range 256).map g.buf) 256
      preamble (bytes "\"2023/10/07,23:07:16+08,1\"" ++ [13]) hpre (by decide) (by decide)
      (by simp; decide) hev
    have hlen : (bytes "\"2023/10/07,23:07:16+08,1\"" ++ [13]).length = 27 := by decide
    have hstr : strlen s.buf = 27 := by rw [strlen_eq, h3]; exact hlen
    have hval : validate_response s.buf (strlen s.buf) ≠ 0 := by
      rw [hstr]; exact validate_response_27 s.buf
    rw [hlen] at h1
    refine ⟨s, hval, ?_⟩
    rw [perform_timesync_returned g st (evs ++ more) 27 s h1, if_pos (Or.inr hval)]

/-- The content `ab` is returned as `ab\r`, and the reference reply ended by `\r\n` is
rejected. -/
theorem carriage_return_is_content_witness :
    (∃ s, read_response zeroGarbage 0 (deliver 0 (bytes "+QLTS: " ++ bytes "ab" ++ [13, 10]))
        (bytes "QLTS") (List.replicate 256 0) 256
          = .returned (((bytes "ab").length + 1 : Nat) : Int) s ∧
      s.buf.take ((bytes "ab").length + 1) = bytes "ab" ++ [13] ∧
      s.buf.getD ((bytes "ab").length + 1) 1 = 0) ∧
    (∃ s, validate_response s.buf (strlen s.buf) ≠ 0 ∧
      perform_timesync zeroGarbage 0
        (deliver 0 (bytes "\r\n" ++ bytes "+QLTS: " ++ bytes "\"2023/10/07,23:07:16+08,1\""
          ++ [13, 10]) ++ deliver 0 (bytes "\r\nOK\r\n")) =
        { actions := [.write (bytes "ATE0\r\n"), .write (bytes "AT+QLTS=1\r\n"),
            .read_response (.returned 27 s)],
          ret := some (-1) }) :=
  ⟨carriage_return_is_content.1 zeroGarbage 0 _ (List.replicate 256 0) 256 (bytes "ab")
      (by decide) (by rw [List.length_replicate]; decide) (delivers_deliver 0 _),
   carriage_return_is_content.2 zeroGarbage 0 _ (deliver 0 (bytes "\r\nOK\r\n")) (bytes "\r\n")
      (by decide) (delivers_deliver 0 _)⟩

/-! ## The command of `set_date_and_time` -/

theorem decimal_value_append (a : List Nat) (d : Nat) :
    decimal_value (a ++ [d]) = 10 * decimal_value a + (d - 48) := by
  simp [decimal_value, List.foldl_append]

/-- The digits produced with enough fuel: they are digits, denote `n`, have no leading zero
unless `n` is 0, and are at most `k` when `n < 10 ^ k`. -/
theorem decimal_digits_aux_spec (fuel n : Nat) (h : n < fuel) :
    AllDigits (decimal_digits_aux fuel n) ∧ decimal_value (decimal_digits_aux fuel n) = n ∧
    decimal_digits_aux fuel n ≠ [] ∧
    (1 ≤ n → (decimal_digits_aux fuel n).head? ≠ some 48) ∧
    (n < 10 → (decimal_digits_aux fuel n).length = 1) ∧
    (∀ k, 1 ≤ k → n < 10 ^ k → (decimal_digits_aux fuel n).length ≤ k) := by
  induction fuel generalizing n with
  | zero => omega
  | succ f ih =>
    by_cases hn : n < 10
    · simp only [decimal_digits_aux, hn, if_true]
      refine ⟨?_, ?_, by simp, ?_, by simp, ?_⟩
      · intro b hb
        rw [List.mem_singleton.1 hb]; omega
      · simp [decimal_value]
      · intro h1; simp; omega
      · intro k hk _; simpa using hk
    · simp only [decimal_digits_aux, hn, if_false]
      obtain ⟨a1, a2, a3, a4, _, a6⟩ := ih (n / 10) (by omega)
      refine ⟨?_, ?_, by simp, ?_, fun h => h.elim, ?_⟩
      · intro b hb
        rcases List.mem_append.1 hb with hb | hb
        · exact a1 b hb
        · rw [List.mem_singleton.1 hb]; omega
      · rw [decimal_value_append, a2]; omega
      · intro _
        rw [List.head?_append_of_ne_nil _ a3]
        exact a4 (by omega)
      · intro k hk hlt
        have hk2 : 2 ≤ k := by
          by_contra hc
          have : k = 1 := by omega
          subst this
          omega
        have hdiv : n / 10 < 10 ^ (k - 1) := by
          have hp : 10 ^ k = 10 ^ (k - 1) * 10 := by
            rw [← Nat.pow_succ]; congr 1; omega
          rw [hp] at hlt
          exact Nat.div_lt_of_lt_mul (by rw [Nat.mul_comm]; exact hlt)
        have := a6 (k - 1) (by omega) hdiv
        simp only [List.length_append, List.length_singleton]
        omega

theorem decimal_value_zeros (k : Nat) (s : List Nat) :
    decimal_value (List.replicate k 48 ++ s) = decimal_value s := by
  induction k with
  | zero => rfl
  | succ j ih =>
    simp only [decimal_value, List.replicate_succ, List.cons_append, List.foldl_cons] at ih ⊢
    exact ih

/-- The conversion `%0<w>d` gives the zero-padded decimal representation. -/
theorem printf_0d_spec (w n : Nat) (hw : 1 ≤ w) : ZeroPadded w n (printf_0d w n) := by
  obtain ⟨a1, a2, a3, a4, a5, _⟩ := decimal_digits_aux_spec (n + 1) n (by omega)
  refine ⟨?_, ?_, ?_, ?_⟩
  · intro b hb
    rcases List.mem_append.1 hb with hb | hb
    · rw [List.eq_of_mem_replicate hb]; omega
    · exact a1 b hb
  · rw [printf_0d, decimal_value_zeros]; exact a2
  · simp only [printf_0d, List.length_append, List.length_replicate]; omega
  · intro hlt
    simp only [printf_0d, List.length_append, List.length_replicate] at hlt
    have hpad : w - (decimal_digits n).length = 0 := by omega
    simp only [printf_0d, hpad, List.replicate_zero, List.nil_append]
    by_cases hn : 1 ≤ n
    · exact a4 hn
    · have h0 : n = 0 := by omega
      subst h0
      have : (decimal_digits 0).length = 1 := a5 (by decide)
      omega

theorem printf_0d_length_le (w n k : Nat) (hk : 1 ≤ k) (hw : w ≤ k) (hn : n < 10 ^ k) :
    (printf_0d w n).length ≤ k := by
  obtain ⟨_, _, _, _, _, a6⟩ := decimal_digits_aux_spec (n + 1) n (by omega)
  have := a6 k hk hn
  simp only [printf_0d, List.length_append, List.length_replicate]
  have h2 : (decimal_digits n).length ≤ k := this
  omega

theorem format_date (y mo d h mi s : Nat) :
    format (bytes "date -u \"%04d-%02d-%02d %02d:%02d:%02d\"") [y, mo, d, h, mi, s]
      = bytes "date -u \"" ++ printf_0d 4 y ++ [45] ++ printf_0d 2 mo ++ [45] ++ printf_0d 2 d
        ++ [32] ++ printf_0d 2 h ++ [58] ++ printf_0d 2 mi ++ [58] ++ printf_0d 2 s ++ [34] := by
  simp [bytes, format]

/-- Claim C17.  For six 16-bit field values the command `set_date_and_time` hands to
`system` is `date -u "`, the year zero-padded to at least 4 digits, `-`, the month, `-`, the
day, a space, the hour, `:`, the minute, `:`, the second, each zero-padded to at least 2
digits, and `"`; it has at most 45 characters, so the 96-byte buffer does not truncate it,
and every character is one of the fixed text, a decimal digit, `-`, `:` or a space. -/
theorem set_date_and_time_command (y mo d h mi s : Nat) (hy : y < 65536) (hmo : mo < 65536)
    (hd : d < 65536) (hh : h < 65536) (hmi : mi < 65536) (hs : s < 65536) :
    ∃ ys ms ds hs mis ss : List Nat,
      set_date_and_time [y, mo, d, h, mi, s]
        = (bytes "date -u \"" ++ ys ++ [45] ++ ms ++ [45] ++ ds ++ [32] ++ hs ++ [58] ++ mis
            ++ [58] ++ ss ++ [34], 0) ∧
      ZeroPadded 4 y ys ∧ ZeroPadded 2 mo ms ∧ ZeroPadded 2 d ds ∧ ZeroPadded 2 h hs ∧
      ZeroPadded 2 mi mis ∧ ZeroPadded 2 s ss ∧
      (set_date_and_time [y, mo, d, h, mi, s]).1.length ≤ 45 ∧
      ∀ b ∈ (set_date_and_time [y, mo, d, h, mi, s]).1,
        b ∈ bytes "date -u \"" ∨ (48 ≤ b ∧ b ≤ 57) ∨ b = 45 ∨ b = 58 ∨ b = 32 := by
  have l1 := printf_0d_length_le 4 y 5 (by decide) (by decide) (by omega)
  have l2 := printf_0d_length_le 2 mo 5 (by decide) (by decide) (by omega)
  have l3 := printf_0d_length_le 2 d 5 (by decide) (by decide) (by omega)
  have l4 := printf_0d_length_le 2 h 5 (by decide) (by decide) (by omega)
  have l5 := printf_0d_length_le 2 mi 5 (by decide) (by decide) (by omega)
  have l6 := printf_0d_length_le 2 s 5 (by decide) (by decide) (by omega)
  have z1 := printf_0d_spec 4 y (by decide)
  have z2 := printf_0d_spec 2 mo (by decide)
  have z3 := printf_0d_spec 2 d (by decide)
  have z4 := printf_0d_spec 2 h (by decide)
  have z5 := printf_0d_spec 2 mi (by decide)
  have z6 := printf_0d_spec 2 s (by decide)
  have hpre : (bytes "date -u \"").length = 9 := by decide
  have hlen : (bytes "date -u \"" ++ printf_0d 4 y ++ [45] ++ printf_0d 2 mo ++ [45]
      ++ printf_0d 2 d ++ [32] ++ printf_0d 2 h ++ [58] ++ printf_0d 2 mi ++ [58]
      ++ printf_0d 2 s ++ [34]).length ≤ 45 := by
    simp only [List.length_append, List.length_singleton, hpre]
    omega
  have hcmd : set_date_and_time [y, mo, d, h, mi, s]
      = (bytes "date -u \"" ++ printf_0d 4 y ++ [45] ++ printf_0d 2 mo ++ [45]
          ++ printf_0d 2 d ++ [32] ++ printf_0d 2 h ++ [58] ++ printf_0d 2 mi ++ [58]
          ++ printf_0d 2 s ++ [34], 0) := by
    have hargs : [([y, mo, d, h, mi, s] : List Nat).getD DATE_TIME_FIELD_YEAR 0,
        ([y, mo, d, h, mi, s] : List Nat).getD DATE_TIME_FIELD_MONTH 0,
        ([y, mo, d, h, mi, s] : List Nat).getD DATE_TIME_FIELD_DAY 0,
        ([y, mo, d, h, mi, s] : List Nat).getD DATE_TIME_FIELD_HOUR 0,
        ([y, mo, d, h, mi, s] : List Nat).getD DATE_TIME_FIELD_MINUTE 0,
        ([y, mo, d, h, mi, s] : List Nat).getD DATE_TIME_FIELD_SECOND 0] = [y, mo, d, h, mi, s] := rfl
    simp only [set_date_and_time, snprintf, hargs, format_date]
    rw [List.take_of_length_le (by omega)]
  refine ⟨_, _, _, _, _, _, hcmd, z1, z2, z3, z4, z5, z6, ?_, ?_⟩
  · rw [hcmd]; exact hlen
  · intro b hb
    rw [hcmd] at hb
    simp only [List.mem_append, List.mem_singleton] at hb
    have dig : ∀ w n, b ∈ printf_0d w n → 1 ≤ w → 48 ≤ b ∧ b ≤ 57 :=
      fun w n hmem hw => (printf_0d_spec w n hw).1 b hmem
    rcases hb with ((((((((((((hb | hb) | hb) | hb) | hb) | hb) | hb) | hb) | hb) | hb) | hb) | hb) | hb)
    · exact Or.inl hb
    · exact Or.inr (Or.inl (dig _ _ hb (by decide)))
    · exact Or.inr (Or.inr (Or.inl hb))
    · exact Or.inr (Or.inl (dig _ _ hb (by decide)))
    · exact Or.inr (Or.inr (Or.inl hb))
    · exact Or.inr (Or.inl (dig _ _ hb (by decide)))
    · exact Or.inr (Or.inr (Or.inr (Or.inr hb)))
    · exact Or.inr (Or.inl (dig _ _ hb (by decide)))
    · exact Or.inr (Or.inr (Or.inr (Or.inl hb)))
    · exact Or.inr (Or.inl (dig _ _ hb (by decide)))
    · exact Or.inr (Or.inr (Or.inr (Or.inl hb)))
    · exact Or.inr (Or.inl (dig _ _ hb (by decide)))
    · exact Or.inl (by rw [hb]; decide)

/-- The fields (2023, 10, 7, 23, 7, 16) give `date -u "2023-10-07 23:07:16"`. -/
theorem set_date_and_time_command_witness :
    set_date_and_time [2023, 10, 7, 23, 7, 16] = (bytes "date -u \"2023-10-07 23:07:16\"", 0) ∧
    (set_date_and_time [2023, 10, 7, 23, 7, 16]).1.length ≤ 45 := by
  obtain ⟨_, _, _, _, _, _, _, _, _, _, _, _, _, hlen, _⟩ :=
    set_date_and_time_command 2023 10 7 23 7 16 (by decide) (by decide) (by decide) (by decide)
      (by decide) (by decide)
  exact ⟨by decide, hlen⟩

/-! ## Reads of zero bytes -/

/-- A `\n` never leaves the scanner running in `CONTENT`. -/
theorem dispatch_newline (resp : List Nat) (s s2 : Scan)
    (h : dispatch resp { s with input_char := 10 } = .running s2) :
    s2.state ≠ READ_STATE_CONTENT := by
  rcases read_state_cases s.state with hst | hst | hst | hst
  · simp [dispatch, hst] at h
    rw [← h]; simp [hst]
  · cases hp : s.prefix_ptr with
    | none => simp [dispatch, hst, hp] at h
    | some p =>
      simp only [dispatch, hst, hp] at h
      simp only [show ¬ ((10 : Nat) = 58) by decide, if_false] at h
      split at h
      · simp at h
      · simp only [Outcome.running.injEq] at h
        rw [← h]; simp [hst]
  · simp [dispatch, hst] at h
    rw [← h]; simp
  · simp only [dispatch, hst, if_true] at h
    split at h <;> simp at h

/-- While the loop is running: the invariant of the consumed bytes, the last consumed byte
in `input_char`, and no `\n` in `input_char` in `CONTENT`. -/
theorem run_running_inv (st : Int) (resp : List Nat) (h0 : 0 ∉ resp) (evs : List Event)
    (fed : List Nat) (s s' : Scan) (hinv : ScanInv resp fed s)
    (hch : s.state = READ_STATE_CONTENT → s.input_char ≠ 10)
    (hrun : run st resp (.running s) evs = .running s') :
    ScanInv resp (fed ++ consumed s.input_char evs) s' ∧
    (s'.state = READ_STATE_CONTENT → s'.input_char ≠ 10) ∧
    s'.input_char = (consumed s.input_char evs).getLastD s.input_char := by
  induction evs generalizing fed s with
  | nil =>
    simp only [run, Outcome.running.injEq] at hrun
    subst hrun
    exact ⟨by simpa [consumed] using hinv, hch, rfl⟩
  | cons e es ih =>
    by_cases hto : e.clock - st > RESPONSE_TIMEOUT
    · have hit : iteration st resp s e = .returned (-1) s := by simp [iteration, hto]
      rw [run, hit, run_not_running _ _ _ _ (by simp)] at hrun
      simp at hrun
    · rcases iteration_cases st resp s e hto with ⟨hit, hcons⟩ | ⟨b, hit, hcons⟩
      · rw [run, hit] at hrun
        rw [hcons]
        exact ih fed s hinv hch hrun
      · have hstep := dispatch_inv resp fed s b h0 hinv
        have hic := dispatch_input_char resp { s with input_char := b }
        rw [run, hit] at hrun
        cases hd : dispatch resp { s with input_char := b } with
        | running s2 =>
          rw [hd] at hstep hrun hic
          have hic2 : s2.input_char = b := hic
          have hch2 : s2.state = READ_STATE_CONTENT → s2.input_char ≠ 10 := by
            intro hs2 hb
            rw [hic2] at hb
            subst hb
            exact dispatch_newline resp s s2 hd hs2
          obtain ⟨k1, k2, k3⟩ := ih (fed ++ [b]) s2 hstep hch2 hrun
          rw [hic2] at k1 k3
          rw [hcons]
          refine ⟨by simpa using k1, k2, ?_⟩
          rw [k3, List.getLastD_cons]
        | returned r2 s2 =>
          rw [hd, run_not_running _ _ _ _ (by simp)] at hrun
          simp at hrun
        | fault s2 =>
          rw [hd, run_not_running _ _ _ _ (by simp)] at hrun
          simp at hrun

/-- Claim C18.  A read that returns 0 is processed exactly like the reception of the byte
value `input_char` already holds, in every state and at every clock reading, while a
negative result leaves the scan as it is.  In a scan that has reached `CONTENT`,
`input_char` holds the last consumed byte, which is not `\n`, so a read of zero bytes
stores one more copy of it in the buffer (when there is room). -/
theorem read_of_zero_bytes_repeats_last_byte :
    (∀ (start_time : Int) (response : List Nat) (s : Scan) (t : Int),
      iteration start_time response s { clock := t, read := .eof }
        = iteration start_time response s { clock := t, read := .data s.input_char }) ∧
    (∀ (start_time : Int) (response : List Nat) (s : Scan) (t : Int),
      t - start_time ≤ RESPONSE_TIMEOUT →
      iteration start_time response s { clock := t, read := .error } = .running s) ∧
    (∀ (g : Garbage) (start_time : Int) (evs : List Event) (buf : List Nat) (buf_size : Int)
        (s : Scan) (t : Int),
      read_response g start_time evs (bytes "QLTS") buf buf_size = .running s →
      s.state = READ_STATE_CONTENT → t - start_time ≤ RESPONSE_TIMEOUT →
      s.ptr < s.buf.length →
      (consumed g.input_char evs).getLast? = some s.input_char ∧ s.input_char ≠ 10 ∧
      read_response g start_time (evs ++ [{ clock := t, read := .eof }]) (bytes "QLTS") buf
          buf_size
        = .running { s with buf := s.buf.set s.ptr s.input_char, ptr := s.ptr + 1 }) := by
  refine ⟨?_, ?_, ?_⟩
  · intro st resp s t
    rfl
  · intro st resp s t ht
    have h : ¬ (t - st > RESPONSE_TIMEOUT) := by omega
    simp only [iteration, h, if_false]
  · intro g st evs buf n s t hrun hs ht hroom
    obtain ⟨k1, k2, k3⟩ := run_running_inv st (bytes "QLTS") (by decide) evs []
      (read_response_init g buf) s (scanInv_init _ g buf) (by intro h; cases h) hrun
    have hne : consumed g.input_char evs ≠ [] := by
      simp only [ScanInv, hs, List.nil_append] at k1
      obtain ⟨_, _, pre, hpre⟩ := k1
      intro hnil
      have hc : consumed (read_response_init g buf).input_char evs = [] := hnil
      rw [hc] at hpre
      simp at hpre
    have hlast : (consumed g.input_char evs).getLast? = some s.input_char := by
      have h3 : s.input_char = (consumed g.input_char evs).getLastD g.input_char := k3
      rw [h3, List.getLastD_eq_getLast?]
      cases hl : (consumed g.input_char evs).getLast? with
      | none => exact absurd (List.getLast?_eq_none_iff.1 hl) hne
      | some x => rfl
    have hc10 := k2 hs
    refine ⟨hlast, hc10, ?_⟩
    have hto : ¬ (t - st > RESPONSE_TIMEOUT) := by omega
    unfold read_response at hrun ⊢
    rw [run_append, hrun]
    simp [run, iteration, hto, dispatch, hs, hc10, store_some _ _ _ hroom]

/-- After `+QLTS: ab` the byte `b` is repeated by a read of zero bytes; with two such reads
before the `\n` the frame `abbb` is returned. -/
theorem read_of_zero_bytes_repeats_last_byte_witness :
    ((consumed zeroGarbage.input_char (deliver 0 (bytes "+QLTS: ab"))).getLast? = some 98 ∧
      (98 : Nat) ≠ 10 ∧
      read_response zeroGarbage 0 (deliver 0 (bytes "+QLTS: ab") ++ [{ clock := 1, read := .eof }])
          (bytes "QLTS") (List.replicate 8 0) 8
        = .running
          { state := READ_STATE_CONTENT,
            prefix_buf := [81, 76, 84, 83, 58] ++ List.replicate 27 0, prefix_ptr := some 5,
            input_char := 98, buf := [97, 98, 98, 0, 0, 0, 0, 0], ptr := 3 }) ∧
    (read_response zeroGarbage 0
        (deliver 0 (bytes "+QLTS: ab") ++
          [{ clock := 1, read := .eof }, { clock := 1, read := .eof },
           { clock := 1, read := .data 10 }])
        (bytes "QLTS") (List.replicate 8 0) 8).success = true ∧
    cstr (read_response zeroGarbage 0
        (deliver 0 (bytes "+QLTS: ab") ++
          [{ clock := 1, read := .eof }, { clock := 1, read := .eof },
           { clock := 1, read := .data 10 }])
        (bytes "QLTS") (List.replicate 8 0) 8).scan.buf = bytes "abbb" :=
  ⟨read_of_zero_bytes_repeats_last_byte.2.2 zeroGarbage 0 (deliver 0 (bytes "+QLTS: ab"))
      (List.replicate 8 0) 8
      { state := READ_STATE_CONTENT,
        prefix_buf := [81, 76, 84, 83, 58] ++ List.replicate 27 0, prefix_ptr := some 5,
        input_char := 98, buf := [97, 98, 0, 0, 0, 0, 0, 0], ptr := 2 } 1
      (by decide) rfl (by decide) (by decide),
   by decide, by decide⟩

end QuectelTimesync
